import Mathlib

/-! # file-server-gateway: the `Files` handler of `controller/file/file.go`

A shallow embedding of the read-through file gateway.  The handler is a total
function on an explicit request context: the response writer, the local
filesystem and a log of every call made to a collaborator (metadata store,
filesystem, remote node) are threaded through as state.  Everything the handler
cannot decide by itself (the metadata store, the JSON decoder, the remote node,
the failures of filesystem calls and of the response writer) is a field of the
environment `Env`, so that each failure the handler checks for can occur.  A nil pointer
dereference ends the handler and is recorded in the context.
-/

set_option autoImplicit false

namespace FileGateway

/-- Go `string`: a sequence of characters.  All separators used by the handler
(`/`, `:`, `.`) are ASCII, so splitting by character and by byte agree. -/
abbrev Str := List Char

/-- Go `[]byte`. -/
abbrev Bytes := List Nat

/-! ## Go standard library, as far as the handler uses it -/

/-- Go `strings.Split(s, sep)` for a one-character separator `sep`: the substrings
between the separators, `count(sep) + 1` of them. -/
def strings.Split : Str → Char → List Str
  | [], _ => [[]]
  | x :: xs, c =>
    if x = c then [] :: strings.Split xs c
    else match strings.Split xs c with
      | [] => [[x]]
      | h :: t => (x :: h) :: t

/-- Go `strings.Join(elems, sep)`. -/
def strings.Join : List Str → Str → Str
  | [], _ => []
  | [a], _ => a
  | a :: b :: t, sep => a ++ sep ++ strings.Join (b :: t) sep

/-- Go `strings.TrimLeft(s, cutset)`: all leading characters contained in `cutset` removed. -/
def strings.TrimLeft (s cutset : Str) : Str :=
  s.dropWhile (fun c => decide (c ∈ cutset))

/-- Go `fmt.Sprintf` with the verb `%d`, for an integer `n`. -/
def fmt.Sprintf_d (n : Int) : Str :=
  if n < 0 then '-' :: Nat.toDigits 10 n.natAbs else Nat.toDigits 10 n.toNat

/-- One step of `path.Clean`, on the stack of the path elements kept so far (top first):
empty elements and `.` are dropped, `..` removes the element before it unless there is none
(dropped at the root, kept on a relative path) or it is itself `..`. -/
def path.cleanStep (rooted : Bool) (stk : List Str) (c : Str) : List Str :=
  if c = [] ∨ c = ['.'] then stk
  else if c = ['.', '.'] then
    match stk with
    | [] => if rooted then [] else [c]
    | top :: rest => if top = ['.', '.'] then c :: stk else rest
  else c :: stk

/-- The stack of path elements `path.Clean` keeps for `p` (top first). -/
def path.cleanStack (rooted : Bool) (p : Str) : List Str :=
  (strings.Split p '/').foldl (path.cleanStep rooted) []

/-- Go `path.Clean(p)`: the shortest path name equivalent to `p` by purely lexical processing. -/
def path.Clean (p : Str) : Str :=
  if p = [] then ['.']
  else
    let rooted := decide (p.head? = some '/')
    let body := strings.Join (path.cleanStack rooted p).reverse ['/']
    if rooted then '/' :: body
    else if body = [] then ['.'] else body

/-- The stacks `path.Clean` can produce: every element is a proper name without `/`, and
`..` only occurs on relative paths, at the bottom of the stack. -/
def path.Canonical (rooted : Bool) : List Str → Prop
  | [] => True
  | c :: stk =>
    (c ≠ [] ∧ c ≠ ['.'] ∧ '/' ∉ c) ∧
    (c = ['.', '.'] → rooted = false ∧ (stk = [] ∨ stk.head? = some ['.', '.'])) ∧
    path.Canonical rooted stk

/-- Go `path.Join(elem...)`: leading empty elements are ignored, the rest is joined with `/`
and cleaned; the result is empty when all elements are. -/
def path.Join (elem : List Str) : Str :=
  match elem.dropWhile (fun e => decide (e = [])) with
  | [] => []
  | es => path.Clean (strings.Join es ['/'])

/-! ## Data model -/

/-- The message `pb.UploadFileInfo`, the fields the handler reads. -/
structure UploadFileInfo where
  ETage : Str
  Header : Str
  FileSize : Int
  FileExtension : Str
  deriving DecidableEq, Repr

/-- The type `UrlPath`. -/
structure UrlPath where
  Bucket : Str
  FileName : Str
  deriving DecidableEq, Repr

/-- The error codes handed to `output.Json`: `enum.IllegalParam` and the codes of the
gateway's `enum` package. -/
inductive ErrorCode where
  | IllegalParam
  | ErrorGetFileMetadata
  | ErrorFileOpen
  | ErrorFileRead
  | ErrorDownloadFile
  | ErrorCreateFile
  | ErrorWriteFile
  deriving DecidableEq, Repr

/-- The constant `http.StatusOK`. -/
def http.StatusOK : Nat := 200

/-- The constant `http.StatusNotFound`. -/
def http.StatusNotFound : Nat := 404

/-- An entry of the local filesystem. -/
inductive Node where
  | file (content : Bytes)
  | dir
  deriving DecidableEq, Repr

/-- The local filesystem: the entries that exist, by path (first match wins). -/
abbrev FS := List (Str × Node)

/-- The entry at path `p`, if any. -/
def FS.lookup : FS → Str → Option Node
  | [], _ => none
  | (q, n) :: rest, p => if q = p then some n else FS.lookup rest p

/-- The filesystem with the entry at `p` replaced by `n`. -/
def FS.set (fs : FS) (p : Str) (n : Node) : FS :=
  (p, n) :: fs.filter (fun e => decide (e.1 ≠ p))

/-- Errors of `os.Stat`, by the class `os.IsExist` distinguishes. -/
inductive OsError where
  | notExist
  | exist
  | other (msg : Str)
  deriving DecidableEq, Repr

/-- A source of bytes for `io.Copy`: an opened file or a `bytes.Reader`. -/
inductive Reader where
  | bytes (content : Bytes)
  | failing (msg : Str)
  deriving DecidableEq, Repr

/-- A call the handler makes to a collaborator. -/
inductive Event where
  | getClient
  | redisGet (key : Str)
  | stat (p : Str)
  | osOpen (p : Str)
  | download (bucket fileName : Str)
  | mkdirAll (p : Str)
  | create (p : Str)
  | write (p : Str) (content : Bytes)
  deriving DecidableEq, Repr

/-- The event is a call of the metadata store. -/
def Event.isMetadata : Event → Bool
  | .getClient => true
  | .redisGet _ => true
  | _ => false

/-- The event is a probe of the local cache (`os.Stat`, `os.Open`). -/
def Event.isProbe : Event → Bool
  | .stat _ => true
  | .osOpen _ => true
  | _ => false

/-- The event is a call of the remote `Download`. -/
def Event.isDownload : Event → Bool
  | .download _ _ => true
  | _ => false

/-- The event changes the filesystem (`os.MkdirAll`, `os.Create`, `file.Write`). -/
def Event.isFsWrite : Event → Bool
  | .mkdirAll _ => true
  | .create _ => true
  | .write _ _ => true
  | _ => false

/-- The collaborators of the handler and the failures of its system calls.  A call whose
error the handler checks fails exactly when the environment says so, whatever the cause
(permissions, missing parent directory, full disk, closed connection), so the runs of the
model cover the runs of the program. -/
structure Env where
  /-- The value of `utils.GetCurrentAbPath()`. -/
  base : Str
  /-- The client `redis.Client.GetClient(model.RedisEngine)`, if configured, as the
  function `key ↦ Get(ctx, key).Bytes()`. -/
  redisClient : Option (Str → Except Str Bytes)
  /-- The decoder `json.Unmarshal(body, &fileMetadata)` on the pointer `fileMetadata`: an
  error, or the pointer afterwards, which is nil (`none`) when the stored value is the JSON
  `null`. -/
  unmarshal : Bytes → Except Str (Option UploadFileInfo)
  /-- The call `dispense.New().Download` for a bucket and a file name, as
  `bucket ↦ fileName ↦ resp.Chunk.Content`. -/
  download : Str → Str → Except Str Bytes
  /-- The error of `os.Stat` on an existing path, if it fails (no search permission on a
  directory of the path, an input/output error). -/
  statErr : Str → Option OsError
  /-- The error of `os.Open` on an existing path, if it fails. -/
  openErr : Str → Option Str
  /-- The error of `os.MkdirAll`, if it fails. -/
  mkdirAllErr : Str → Option Str
  /-- The error of `os.Create`, if it fails. -/
  createErr : Str → Option Str
  /-- The failure of `file.Write`, if it fails: the bytes written before, and the error. -/
  writeErr : Str → Option (Nat × Str)
  /-- The failure of the response writer under `io.Copy`, if it fails: the bytes accepted
  before, and the error. -/
  copyErr : Option (Nat × Str)

/-- The response writer `ctx.Writer`: what the handler has sent so far. -/
structure Writer where
  /-- The calls of `WriteHeader`, in order. -/
  status : List Nat
  /-- The calls of `Header().Add(name, value)` made by the handler, in order, with the names
  as passed (`net/http` canonicalises their letter case only). -/
  header : List (Str × Str)
  /-- The bytes streamed by `io.Copy`. -/
  body : Bytes
  /-- The calls of `output.Json(ctx, code, data)`, in order. -/
  json : List (ErrorCode × Option Str)
  deriving DecidableEq, Repr

/-- The request context `*gin.Context`, with the world the request runs in. -/
structure Context where
  /-- The value of `ctx.Request.URL.Path`. -/
  uriPath : Str
  /-- The response writer `ctx.Writer`. -/
  writer : Writer
  /-- The local filesystem. -/
  fs : FS
  /-- The calls to collaborators, in order. -/
  log : List Event
  /-- The runtime panic that ended the handler, if any. -/
  panic : Option Str

/-- A fresh request for `uriPath` on the filesystem `fs`: nothing sent, nothing called. -/
def request (uriPath : Str) (fs : FS) : Context :=
  { uriPath := uriPath, writer := { status := [], header := [], body := [], json := [] },
    fs := fs, log := [], panic := none }

/-- The call `ctx.Writer.WriteHeader(code)`. -/
def Context.WriteHeader (ctx : Context) (code : Nat) : Context :=
  { ctx with writer := { ctx.writer with status := ctx.writer.status ++ [code] } }

/-- The call `ctx.Writer.Header().Add(name, value)`. -/
def Context.HeaderAdd (ctx : Context) (name value : Str) : Context :=
  { ctx with writer := { ctx.writer with header := ctx.writer.header ++ [(name, value)] } }

/-- The call `output.Json(ctx, code, data)`, recorded with its arguments; how the envelope
is rendered is not part of the model. -/
def output.Json (ctx : Context) (code : ErrorCode) (data : Option Str) : Context :=
  { ctx with writer := { ctx.writer with json := ctx.writer.json ++ [(code, data)] } }

/-- The context with one more call logged. -/
def Context.call (ctx : Context) (e : Event) : Context :=
  { ctx with log := ctx.log ++ [e] }

/-- Go `os.IsExist(err)`. -/
def os.IsExist : OsError → Bool
  | .exist => true
  | _ => false

/-- Go `os.Stat(p)`, the error only: a missing entry is reported as such, on an existing
entry the call succeeds unless the environment makes it fail. -/
def os.Stat (env : Env) (fs : FS) (p : Str) : Option OsError :=
  match fs.lookup p with
  | some _ => env.statErr p
  | none => some OsError.notExist

/-- Go `os.Open(p)`: a reader of the file's bytes, unless the call fails; a directory opens,
but reading it fails. -/
def os.Open (env : Env) (fs : FS) (p : Str) : Except Str Reader :=
  match env.openErr p with
  | some msg => .error msg
  | none =>
    match fs.lookup p with
    | none => .error "no such file or directory".toList
    | some (Node.file content) => .ok (Reader.bytes content)
    | some Node.dir => .ok (Reader.failing "is a directory".toList)

/-- Whether the entry at `p` is a file. -/
def FS.isFile (fs : FS) (p : Str) : Bool :=
  match fs.lookup p with
  | some (Node.file _) => true
  | _ => false

/-- The directories above a path, outermost first, read off the slashes of the path:
`/`, `/srv`, `/srv/data` for `/srv/data/b`. -/
def path.ancestorsFrom (pre : Str) : Str → List Str
  | [] => []
  | c :: rest =>
    if c = '/' then
      (if pre = [] then ['/'] else pre) :: path.ancestorsFrom (pre ++ [c]) rest
    else path.ancestorsFrom (pre ++ [c]) rest

/-- The filesystem with a directory at `p`, if nothing is there yet. -/
def FS.mkdir (fs : FS) (p : Str) : FS :=
  match fs.lookup p with
  | some _ => fs
  | none => fs.set p Node.dir

/-- Go `os.MkdirAll(p, os.ModePerm)`: the filesystem afterwards and the error, if any.
The directory is created along with the parents that are missing; nothing is created when
the call fails or when `p` or one of its parents is a file. -/
def os.MkdirAll (env : Env) (fs : FS) (p : Str) : FS × Option Str :=
  match env.mkdirAllErr p with
  | some msg => (fs, some msg)
  | none =>
    let dirs := path.ancestorsFrom [] p ++ [p]
    if dirs.any (fun d => fs.isFile d) then
      (fs, some "not a directory".toList)
    else (dirs.foldl FS.mkdir fs, none)

/-- Go `os.Create(p)`: the file at `p` is created or truncated, unless the call fails. -/
def os.Create (env : Env) (fs : FS) (p : Str) : Except Str FS :=
  match env.createErr p with
  | some msg => .error msg
  | none => .ok (fs.set p (Node.file []))

/-- Go `file.Write(content)` on the file created at `p`: the filesystem afterwards and the
error, if any. -/
def os.FileWrite (env : Env) (fs : FS) (p : Str) (content : Bytes) : FS × Option Str :=
  match env.writeErr p with
  | some (n, msg) => (fs.set p (Node.file (content.take n)), some msg)
  | none => (fs.set p (Node.file content), none)

/-- Go `io.Copy(ctx.Writer, src)`: the context afterwards and the error, if any. -/
def ioCopy (env : Env) (ctx : Context) (src : Reader) : Context × Option Str :=
  match src with
  | Reader.failing msg => (ctx, some msg)
  | Reader.bytes content =>
    match env.copyErr with
    | some (n, msg) =>
      ({ ctx with writer := { ctx.writer with body := ctx.writer.body ++ content.take n } },
        some msg)
    | none =>
      ({ ctx with writer := { ctx.writer with body := ctx.writer.body ++ content } }, none)

/-! ## controller/file/file.go -/

/-- The table `contentTypes`. -/
def contentTypes : List (Str × Str) :=
  [ (".gif".toList, "image/gif".toList),
    (".png".toList, "image/png".toList),
    (".jpg".toList, "image/jpeg".toList),
    (".pdf".toList, "application/pdf".toList),
    (".xml".toList, "text/xml".toList) ]

/-- The function `exists(path)`. -/
def existsPath (env : Env) (ctx : Context) (p : Str) : Bool × Context :=
  let ctx := ctx.call (Event.stat p)
  match os.Stat env ctx.fs p with
  | some err =>
    if os.IsExist err then (true, ctx)
    else (false, ctx)
  | none => (true, ctx)

/-- The function `getFileMetadataFromFile(ctx, bucket, fileName)`: an error, or the pointer
`fileMetadata`, which is nil (`none`) when `json.Unmarshal` decoded a JSON `null`. -/
def getFileMetadataFromFile (env : Env) (ctx : Context) (bucket fileName : Str) :
    Except Str (Option UploadFileInfo) × Context :=
  let ctx := ctx.call Event.getClient
  match env.redisClient with
  | none => (.error "redis not match".toList, ctx)
  | some redis =>
    let key := bucket ++ "/".toList ++ fileName
    let ctx := ctx.call (Event.redisGet key)
    match redis key with
    | .error err => (.error err, ctx)
    | .ok body =>
      match env.unmarshal body with
      | .error err => (.error err, ctx)
      | .ok fileMetadata => (.ok fileMetadata, ctx)

/-- The function `fileOutput(ctx, filePath)`. -/
def fileOutput (env : Env) (ctx : Context) (filePath : Str) : Context :=
  let ctx := ctx.call (Event.osOpen filePath)
  match os.Open env ctx.fs filePath with
  | .error err =>
    output.Json (ctx.WriteHeader http.StatusNotFound) ErrorCode.ErrorFileOpen (some err)
  | .ok file =>
    match ioCopy env ctx file with
    | (ctx, some err) =>
      output.Json (ctx.WriteHeader http.StatusNotFound) ErrorCode.ErrorFileRead (some err)
    | (ctx, none) => ctx

/-- The function `fileOutputFromNode(ctx, bucket, fileName)`. -/
def fileOutputFromNode (env : Env) (ctx : Context) (bucket fileName : Str) : Context :=
  let ctx := ctx.call (Event.download bucket fileName)
  match env.download bucket fileName with
  | .error err =>
    output.Json (ctx.WriteHeader http.StatusNotFound) ErrorCode.ErrorDownloadFile (some err)
  | .ok content =>
    let dirPath := path.Join [env.base, "data".toList, bucket]
    let ctx :=
      match existsPath env ctx dirPath with
      | (true, ctx) => ctx
      | (false, ctx) =>
        { ctx.call (Event.mkdirAll dirPath) with fs := (os.MkdirAll env ctx.fs dirPath).1 }
    let target := path.Join [dirPath, fileName]
    let ctx := ctx.call (Event.create target)
    match os.Create env ctx.fs target with
    | .error err =>
      output.Json (ctx.WriteHeader http.StatusNotFound) ErrorCode.ErrorCreateFile (some err)
    | .ok fs =>
      let ctx := { ctx with fs := fs }
      let ctx := ctx.call (Event.write target content)
      match os.FileWrite env ctx.fs target content with
      | (fs, some err) =>
        output.Json ({ ctx with fs := fs }.WriteHeader http.StatusNotFound)
          ErrorCode.ErrorWriteFile (some err)
      | (fs, none) =>
        match ioCopy env { ctx with fs := fs } (Reader.bytes content) with
        | (ctx, some err) =>
          output.Json (ctx.WriteHeader http.StatusNotFound) ErrorCode.ErrorFileRead (some err)
        | (ctx, none) => ctx

/-- The `UrlPath` the handler `Files` builds from the segments of the request path. -/
def urlPath (paths : List Str) : UrlPath :=
  { Bucket := strings.TrimLeft (strings.Join (paths.take (paths.length - 1)) "/".toList)
      "/".toList,
    FileName := paths.getLastD [] }

/-- The content type the handler `Files` resolves from the metadata header and the
file name (the value of `contentTypeValue` when the headers are written). -/
def contentTypeValue (header fileName : Str) : Str :=
  let contentTypeValue : Str := []
  let contentTypeValue :=
    if header ≠ [] then
      let ss := strings.Split header ':'
      if ss.length > 0 then ss.getLastD [] else contentTypeValue
    else contentTypeValue
  let ss := strings.Split fileName '.'
  if ss.length > 1 then
    match contentTypes.lookup (ss.getD 1 []) with
    | some v => if contentTypeValue = [] then v else contentTypeValue
    | none => contentTypeValue
  else contentTypeValue

/-- The handler `Files(ctx)`.  When the metadata pointer is nil, reading
`fileMetadata.Header` panics and the handler ends there. -/
def Files (env : Env) (ctx : Context) : Context :=
  let uriPath := ctx.uriPath
  let paths := strings.Split uriPath '/'
  if paths.length < 2 then
    output.Json ctx ErrorCode.IllegalParam none
  else
    let ctx := ctx.WriteHeader http.StatusOK
    let p := urlPath paths
    match getFileMetadataFromFile env ctx p.Bucket p.FileName with
    | (.error err, ctx) =>
      output.Json (ctx.WriteHeader http.StatusNotFound) ErrorCode.ErrorGetFileMetadata (some err)
    | (.ok none, ctx) =>
      { ctx with panic := some "invalid memory address or nil pointer dereference".toList }
    | (.ok (some fileMetadata), ctx) =>
      let ctx := ctx.HeaderAdd "Content-Type".toList
        (contentTypeValue fileMetadata.Header p.FileName)
      let ctx := ctx.HeaderAdd "e_tage".toList fileMetadata.ETage
      let ctx := ctx.HeaderAdd "header_custom".toList fileMetadata.Header
      let ctx := ctx.HeaderAdd "file_size".toList (fmt.Sprintf_d fileMetadata.FileSize)
      let ctx := ctx.HeaderAdd "file_extension".toList fileMetadata.FileExtension
      let filePath := path.Join [env.base, "data".toList, p.Bucket, p.FileName]
      match existsPath env ctx filePath with
      | (true, ctx) => fileOutput env ctx filePath
      | (false, ctx) => fileOutputFromNode env ctx p.Bucket p.FileName

/-- The bucket and file name `Files` resolves for the request path `uriPath`. -/
def requestPath (uriPath : Str) : UrlPath :=
  urlPath (strings.Split uriPath '/')

/-- The local path `<base>/data/<bucket>/<file_name>` that `Files` probes. -/
def cachePath (env : Env) (uriPath : Str) : Str :=
  path.Join [env.base, "data".toList, (requestPath uriPath).Bucket, (requestPath uriPath).FileName]

/-- The outcome of the metadata lookup `Files` performs for the request path `uriPath`:
an error, a record (`some`), or a nil pointer without error (`none`). -/
def metadataOf (env : Env) (uriPath : Str) : Except Str (Option UploadFileInfo) :=
  (getFileMetadataFromFile env (request uriPath [])
    (requestPath uriPath).Bucket (requestPath uriPath).FileName).1

/-- The answer of `exists(p)`: whether the probe `os.Stat` finds the entry at `p`. -/
def statFinds (env : Env) (fs : FS) (p : Str) : Bool :=
  match os.Stat env fs p with
  | some err => os.IsExist err
  | none => true

/-- The response headers written by `Files` once the metadata is known. -/
def responseHeaders (md : UploadFileInfo) (fileName : Str) : List (Str × Str) :=
  [ ("Content-Type".toList, contentTypeValue md.Header fileName),
    ("e_tage".toList, md.ETage),
    ("header_custom".toList, md.Header),
    ("file_size".toList, fmt.Sprintf_d md.FileSize),
    ("file_extension".toList, md.FileExtension) ]

/-- The calls `Files` makes to the metadata store for the request path `uriPath`. -/
def metadataCalls (env : Env) (uriPath : Str) : List Event :=
  Event.getClient ::
    (match env.redisClient with
      | none => []
      | some _ =>
        [Event.redisGet ((requestPath uriPath).Bucket ++ "/".toList
          ++ (requestPath uriPath).FileName)])

/-- The context in which `Files` turns to the local cache or the remote node: status 200
sent, the headers of the record `md` written, the store asked and the local path probed. -/
def probedContext (env : Env) (uriPath : Str) (fs : FS) (md : UploadFileInfo) : Context :=
  { uriPath := uriPath,
    writer := { status := [http.StatusOK],
                header := responseHeaders md (requestPath uriPath).FileName,
                body := [], json := [] },
    fs := fs,
    log := metadataCalls env uriPath ++ [Event.stat (cachePath env uriPath)],
    panic := none }

/-! ## Sample worlds -/

/-- A metadata record without a custom header. -/
def sampleMetadata : UploadFileInfo :=
  { ETage := "abc".toList, Header := [], FileSize := 3, FileExtension := ".png".toList }

/-- A metadata record with a custom header. -/
def sampleMetadataWithHeader : UploadFileInfo :=
  { ETage := "abc".toList, Header := "a:b:image/png".toList, FileSize := 3,
    FileExtension := ".gif".toList }

/-- A world without failures: the store holds `md` under every key, the remote node serves
the bytes `7 8 9` for every file, and the process runs in `/srv`. -/
def sampleEnv (md : UploadFileInfo) : Env :=
  { base := "/srv".toList
    redisClient := some (fun _ => .ok [1])
    unmarshal := fun _ => .ok (some md)
    download := fun _ _ => .ok [7, 8, 9]
    statErr := fun _ => none
    openErr := fun _ => none
    mkdirAllErr := fun _ => none
    createErr := fun _ => none
    writeErr := fun _ => none
    copyErr := none }

/-- The sample world with no metadata store configured. -/
def envNoStore : Env :=
  { sampleEnv sampleMetadata with redisClient := none }

/-- The sample world with a store that holds no key (`redis.Nil`). -/
def envKeyAbsent : Env :=
  { sampleEnv sampleMetadata with redisClient := some (fun _ => .error "redis: nil".toList) }

/-- The sample world with a response writer that fails after one byte. -/
def envBrokenPipe : Env :=
  { sampleEnv sampleMetadata with copyErr := some (1, "write: broken pipe".toList) }

/-- The sample world in which the cached files are not readable by the process. -/
def envOpenDenied : Env :=
  { sampleEnv sampleMetadata with openErr := fun _ => some "open: permission denied".toList }

/-- The sample world in which the process has run out of file descriptors when it opens a
cached file. -/
def envTooManyFiles : Env :=
  { sampleEnv sampleMetadata with openErr := fun _ => some "open: too many open files".toList }

/-- The sample world with a store whose values are the JSON `null`. -/
def envNullRecord : Env :=
  { sampleEnv sampleMetadata with unmarshal := fun _ => .ok none }

/-- The sample world in which the process may not search the bucket directories: the files
in them can neither be examined nor created. -/
def envStatDenied : Env :=
  { sampleEnv sampleMetadata with
    statErr := fun p =>
      if p = "/srv/data/b/x.png".toList then
        some (OsError.other "stat: permission denied".toList)
      else none
    createErr := fun _ => some "open: permission denied".toList }

/-- A filesystem holding the cached file of the request `/b/x.png`. -/
def sampleCache : FS :=
  [ ("/srv/data/b/x.png".toList, Node.file [4, 5, 6]), ("/srv/data/b".toList, Node.dir),
    ("/srv/data".toList, Node.dir), ("/srv".toList, Node.dir), ("/".toList, Node.dir) ]

/-! # Theorems -/

/-! ## The library model on the examples of the Go documentation and tests -/

theorem split_examples :
    strings.Split "a,b,c".toList ',' = ["a".toList, "b".toList, "c".toList] ∧
    strings.Split [] '/' = [[]] ∧
    strings.Split "/b/x.png".toList '/' = [[], "b".toList, "x.png".toList] ∧
    strings.Split "x.png".toList '/' = ["x.png".toList] ∧
    strings.Split "a:".toList ':' = ["a".toList, []] := by
  decide

theorem clean_examples :
    path.Clean [] = ".".toList ∧
    path.Clean "abc/def".toList = "abc/def".toList ∧
    path.Clean "../..".toList = "../..".toList ∧
    path.Clean "/".toList = "/".toList ∧
    path.Clean "abc/".toList = "abc".toList ∧
    path.Clean "abc//def//ghi".toList = "abc/def/ghi".toList ∧
    path.Clean "//abc//".toList = "/abc".toList ∧
    path.Clean "/./abc/def".toList = "/abc/def".toList ∧
    path.Clean "abc/def/../ghi/../jkl".toList = "abc/jkl".toList ∧
    path.Clean "abc/def/../..".toList = ".".toList ∧
    path.Clean "/abc/def/../../..".toList = "/".toList ∧
    path.Clean "abc/def/../../../ghi/jkl/../../../mno".toList = "../../mno".toList ∧
    path.Clean "abc/../../././../def".toList = "../../def".toList := by
  decide

theorem join_examples :
    path.Join ["a".toList, "b".toList, "c".toList] = "a/b/c".toList ∧
    path.Join ["a".toList, "b/c".toList] = "a/b/c".toList ∧
    path.Join ["a/b".toList, "../../../xyz".toList] = "../xyz".toList ∧
    path.Join [[], []] = [] ∧
    path.Join ["a".toList, []] = "a".toList ∧
    path.Join [[], "a".toList] = "a".toList ∧
    path.Join ["/".toList, "a".toList] = "/a".toList ∧
    path.Join ["a/".toList, "b".toList] = "a/b".toList := by
  decide

theorem sprintf_examples :
    fmt.Sprintf_d 0 = "0".toList ∧
    fmt.Sprintf_d 1024 = "1024".toList ∧
    fmt.Sprintf_d (-17) = "-17".toList := by
  decide

theorem trimLeft_examples :
    strings.TrimLeft "//a//b".toList "/".toList = "a//b".toList ∧
    strings.TrimLeft "///".toList "/".toList = [] := by
  decide

/-! ## Splitting and joining -/

theorem split_ne_nil (s : Str) (c : Char) : strings.Split s c ≠ [] := by
  induction s with
  | nil => simp [strings.Split]
  | cons x xs ih =>
    unfold strings.Split
    split
    · simp
    · split <;> simp

theorem split_cons_sep (xs : Str) (c : Char) :
    strings.Split (c :: xs) c = [] :: strings.Split xs c := by
  simp [strings.Split]

theorem split_cons_other (x : Char) (xs : Str) (c : Char) (h : x ≠ c) :
    strings.Split (x :: xs) c
      = (x :: (strings.Split xs c).headD []) :: (strings.Split xs c).tail := by
  have hne := split_ne_nil xs c
  rw [strings.Split, if_neg h]
  cases hs : strings.Split xs c with
  | nil => exact absurd hs hne
  | cons a t => simp

theorem split_length (s : Str) (c : Char) :
    (strings.Split s c).length = s.count c + 1 := by
  induction s with
  | nil => simp [strings.Split]
  | cons x xs ih =>
    by_cases h : x = c
    · subst h
      rw [split_cons_sep]
      simp [ih]
    · rw [split_cons_other x xs c h]
      have hne := split_ne_nil xs c
      cases hs : strings.Split xs c with
      | nil => exact absurd hs hne
      | cons a t =>
        rw [hs] at ih
        have hc : List.count c (x :: xs) = List.count c xs := by
          rw [List.count_cons]
          simp [h]
        simp only [List.headD_cons, List.tail_cons, List.length_cons] at ih ⊢
        omega

theorem split_length_lt_two (s : Str) (c : Char) :
    (strings.Split s c).length < 2 ↔ c ∉ s := by
  rw [split_length, ← List.count_eq_zero]
  omega

theorem split_no_sep (s : Str) (c : Char) : ∀ seg ∈ strings.Split s c, c ∉ seg := by
  induction s with
  | nil => simp [strings.Split]
  | cons x xs ih =>
    by_cases h : x = c
    · subst h
      rw [split_cons_sep]
      intro seg hseg
      rcases List.mem_cons.mp hseg with rfl | hseg
      · simp
      · exact ih seg hseg
    · rw [split_cons_other x xs c h]
      have hne := split_ne_nil xs c
      cases hs : strings.Split xs c with
      | nil => exact absurd hs hne
      | cons a t =>
        rw [hs] at ih
        intro seg hseg
        simp only [List.headD_cons, List.tail_cons] at hseg
        rcases List.mem_cons.mp hseg with rfl | hseg
        · intro hmem
          rcases List.mem_cons.mp hmem with e | hmem
          · exact h e.symm
          · exact ih a (List.mem_cons_self _ _) hmem
        · exact ih seg (List.mem_cons_of_mem _ hseg)

theorem join_cons_of_ne_nil (a : Str) (l : List Str) (sep : Str) (h : l ≠ []) :
    strings.Join (a :: l) sep = a ++ sep ++ strings.Join l sep := by
  cases l with
  | nil => exact absurd rfl h
  | cons b t => rfl

theorem join_split (s : Str) (c : Char) : strings.Join (strings.Split s c) [c] = s := by
  induction s with
  | nil => simp [strings.Split, strings.Join]
  | cons x xs ih =>
    by_cases h : x = c
    · subst h
      rw [split_cons_sep, join_cons_of_ne_nil _ _ _ (split_ne_nil xs _), ih]
      simp
    · rw [split_cons_other x xs c h]
      have hne := split_ne_nil xs c
      cases hs : strings.Split xs c with
      | nil => exact absurd hs hne
      | cons a t =>
        rw [hs] at ih
        simp only [List.headD_cons, List.tail_cons]
        cases t with
        | nil =>
          simp only [strings.Join] at ih ⊢
          rw [ih]
        | cons b t =>
          simp only [strings.Join] at ih ⊢
          rw [← ih]
          simp

theorem join_append_singleton (l : List Str) (a sep : Str) (h : l ≠ []) :
    strings.Join (l ++ [a]) sep = strings.Join l sep ++ sep ++ a := by
  induction l with
  | nil => exact absurd rfl h
  | cons b t ih =>
    cases t with
    | nil => simp [strings.Join]
    | cons d t =>
      have h2 : (d :: t) ++ [a] ≠ [] := by simp
      rw [List.cons_append, join_cons_of_ne_nil b _ sep h2, ih (by simp),
        join_cons_of_ne_nil b _ sep (by simp)]
      simp

theorem split_append_sep (a b : Str) (c : Char) :
    strings.Split (a ++ c :: b) c = strings.Split a c ++ strings.Split b c := by
  induction a with
  | nil => simp [strings.Split]
  | cons x xs ih =>
    by_cases h : x = c
    · subst h
      rw [List.cons_append, split_cons_sep, split_cons_sep, ih]
      rfl
    · rw [List.cons_append, split_cons_other x _ c h, split_cons_other x xs c h, ih]
      have hne := split_ne_nil xs c
      cases hs : strings.Split xs c with
      | nil => exact absurd hs hne
      | cons a t => simp

theorem split_of_not_mem (s : Str) (c : Char) (h : c ∉ s) : strings.Split s c = [s] := by
  induction s with
  | nil => simp [strings.Split]
  | cons x xs ih =>
    have hx : x ≠ c := fun e => h (e ▸ List.mem_cons_self _ _)
    have hxs : c ∉ xs := fun hm => h (List.mem_cons_of_mem _ hm)
    rw [split_cons_other x xs c hx, ih hxs]
    simp

theorem split_join (l : List Str) (c : Char) (hl : l ≠ []) (h : ∀ e ∈ l, c ∉ e) :
    strings.Split (strings.Join l [c]) c = l := by
  induction l with
  | nil => exact absurd rfl hl
  | cons a t ih =>
    cases t with
    | nil =>
      simp only [strings.Join]
      exact split_of_not_mem a c (h a (List.mem_cons_self _ _))
    | cons b t =>
      rw [join_cons_of_ne_nil a _ _ (by simp), List.append_assoc, List.singleton_append,
        split_append_sep, ih (by simp) (fun e he => h e (List.mem_cons_of_mem _ he)),
        split_of_not_mem a c (h a (List.mem_cons_self _ _))]
      rfl

theorem join_head (a : Str) (l : List Str) (sep : Str) (ha : a ≠ []) :
    (strings.Join (a :: l) sep).head? = a.head? := by
  cases a with
  | nil => exact absurd rfl ha
  | cons x xs =>
    cases l with
    | nil => rfl
    | cons b t => simp [strings.Join]

/-! ## path.Clean and path.Join -/

theorem cleanStep_ignored (r : Bool) (stk : List Str) (c : Str) (h : c = [] ∨ c = ['.']) :
    path.cleanStep r stk c = stk := by
  simp [path.cleanStep, h]

theorem canonical_step (r : Bool) (stk : List Str) (c : Str)
    (hs : path.Canonical r stk) (hc : '/' ∉ c) :
    path.Canonical r (path.cleanStep r stk c) := by
  unfold path.cleanStep
  split
  · exact hs
  · rename_i hne
    split
    · rename_i hdd
      cases stk with
      | nil =>
        cases r with
        | true => simp [path.Canonical]
        | false =>
          subst hdd
          simp [path.Canonical]
      | cons top rest =>
        simp only [path.Canonical] at hs
        by_cases ht : top = ['.', '.']
        · subst ht
          subst hdd
          show path.Canonical r
            (if ['.', '.'] = ['.', '.'] then ['.', '.'] :: ['.', '.'] :: rest else rest)
          rw [if_pos rfl]
          exact ⟨⟨by simp, by simp, by simp⟩, fun _ => ⟨(hs.2.1 rfl).1, Or.inr rfl⟩, hs⟩
        · show path.Canonical r (if top = ['.', '.'] then c :: top :: rest else rest)
          rw [if_neg ht]
          exact hs.2.2
    · rename_i hdd
      simp only [path.Canonical]
      push_neg at hne
      exact ⟨⟨hne.1, hne.2, hc⟩, fun h => absurd h hdd, hs⟩

theorem canonical_foldl (r : Bool) (l : List Str) (stk : List Str)
    (hs : path.Canonical r stk) (hl : ∀ c ∈ l, '/' ∉ c) :
    path.Canonical r (l.foldl (path.cleanStep r) stk) := by
  induction l generalizing stk with
  | nil => exact hs
  | cons c t ih =>
    simp only [List.foldl_cons]
    exact ih _ (canonical_step r stk c hs (hl c (List.mem_cons_self _ _)))
      (fun d hd => hl d (List.mem_cons_of_mem _ hd))

theorem canonical_cleanStack (r : Bool) (p : Str) : path.Canonical r (path.cleanStack r p) :=
  canonical_foldl r _ [] (by simp [path.Canonical]) (split_no_sep p '/')

theorem canonical_replay (r : Bool) (stk : List Str) (hs : path.Canonical r stk) :
    stk.reverse.foldl (path.cleanStep r) [] = stk := by
  induction stk with
  | nil => rfl
  | cons c t ih =>
    simp only [path.Canonical] at hs
    rw [List.reverse_cons, List.foldl_append, ih hs.2.2]
    simp only [List.foldl_cons, List.foldl_nil]
    obtain ⟨⟨h1, h2, _⟩, hdd, _⟩ := hs
    unfold path.cleanStep
    rw [if_neg (by push_neg; exact ⟨h1, h2⟩)]
    by_cases hc : c = ['.', '.']
    · rw [if_pos hc]
      obtain ⟨hr, ht⟩ := hdd hc
      cases t with
      | nil => simp [hr]
      | cons top rest =>
        rcases ht with ht | ht
        · exact absurd ht (by simp)
        · simp only [List.head?_cons, Option.some.injEq] at ht
          simp [ht]
    · rw [if_neg hc]

theorem canonical_mem (r : Bool) (stk : List Str) (hs : path.Canonical r stk) :
    ∀ e ∈ stk, e ≠ [] ∧ e ≠ ['.'] ∧ '/' ∉ e := by
  induction stk with
  | nil => simp
  | cons c t ih =>
    intro e he
    rcases List.mem_cons.mp he with rfl | he
    · exact hs.1
    · exact ih hs.2.2 e he

theorem join_ne_nil (l : List Str) (sep : Str) (hl : l ≠ []) (h : ∀ e ∈ l, e ≠ []) :
    strings.Join l sep ≠ [] := by
  cases l with
  | nil => exact absurd rfl hl
  | cons a t =>
    intro hj
    have ha := h a (List.mem_cons_self _ _)
    have := join_head a t sep ha
    rw [hj] at this
    cases a with
    | nil => exact ha rfl
    | cons x xs => simp at this

theorem cleanStack_join (r : Bool) (stk : List Str) (hs : path.Canonical r stk)
    (hne : stk ≠ []) :
    path.cleanStack r (strings.Join stk.reverse ['/']) = stk := by
  unfold path.cleanStack
  rw [split_join _ _ (by simpa using hne)
    (fun e he => ((canonical_mem r stk hs) e (List.mem_reverse.mp he)).2.2)]
  exact canonical_replay r stk hs

theorem cleanStack_rooted (r : Bool) (stk : List Str) (hs : path.Canonical r stk) :
    path.cleanStack r ('/' :: strings.Join stk.reverse ['/']) = stk := by
  by_cases hne : stk = []
  · subst hne
    simp [path.cleanStack, strings.Join, strings.Split, path.cleanStep]
  · have h := cleanStack_join r stk hs hne
    unfold path.cleanStack at h ⊢
    rw [split_cons_sep, List.foldl_cons, cleanStep_ignored _ _ _ (Or.inl rfl)]
    exact h

theorem cleanStack_append (r : Bool) (a b : Str) :
    path.cleanStack r (a ++ '/' :: b)
      = (strings.Split b '/').foldl (path.cleanStep r) (path.cleanStack r a) := by
  unfold path.cleanStack
  rw [split_append_sep, List.foldl_append]

theorem clean_of_ne_nil (p : Str) (hp : p ≠ []) :
    path.Clean p =
      if p.head? = some '/' then
        '/' :: strings.Join (path.cleanStack true p).reverse ['/']
      else if strings.Join (path.cleanStack false p).reverse ['/'] = [] then ['.']
      else strings.Join (path.cleanStack false p).reverse ['/'] := by
  unfold path.Clean
  rw [if_neg hp]
  by_cases h : p.head? = some '/' <;> simp [h]

theorem clean_ne_nil (p : Str) : path.Clean p ≠ [] := by
  by_cases hp : p = []
  · simp [path.Clean, hp]
  · rw [clean_of_ne_nil p hp]
    split
    · simp
    · split
      · simp
      · assumption

theorem clean_head (p : Str) (hp : p ≠ []) :
    (path.Clean p).head? = some '/' ↔ p.head? = some '/' := by
  rw [clean_of_ne_nil p hp]
  by_cases h : p.head? = some '/'
  · simp [h]
  · simp only [h, if_false, iff_false]
    split
    · simp
    · rename_i hb
      have hc := canonical_cleanStack false p
      cases hrev : (path.cleanStack false p).reverse with
      | nil =>
        rw [hrev] at hb
        exact absurd rfl hb
      | cons a t =>
        have ha : a ∈ path.cleanStack false p := by
          rw [← List.mem_reverse, hrev]
          exact List.mem_cons_self _ _
        obtain ⟨h1, _, h3⟩ := canonical_mem false _ hc a ha
        rw [join_head a t _ h1]
        cases a with
        | nil => exact absurd rfl h1
        | cons x xs =>
          simp only [List.head?_cons, Option.some.injEq]
          intro hx
          exact h3 (hx ▸ List.mem_cons_self _ _)

theorem cleanStack_clean (r : Bool) (p : Str) (hp : p ≠ [])
    (hr : r = decide (p.head? = some '/')) :
    path.cleanStack r (path.Clean p) = path.cleanStack r p := by
  have hc := canonical_cleanStack r p
  rw [clean_of_ne_nil p hp]
  by_cases h : p.head? = some '/'
  · have hrt : r = true := by simp [hr, h]
    subst hrt
    rw [if_pos h]
    exact cleanStack_rooted true _ hc
  · have hrf : r = false := by simp [hr, h]
    subst hrf
    rw [if_neg h]
    by_cases hne : path.cleanStack false p = []
    · rw [hne]
      rfl
    · rw [if_neg (join_ne_nil _ _ (by simpa using hne)
        (fun e he => ((canonical_mem false _ hc) e (List.mem_reverse.mp he)).1))]
      exact cleanStack_join false _ hc hne

theorem head_append_of_ne_nil (a b : Str) (ha : a ≠ []) : (a ++ b).head? = a.head? := by
  cases a with
  | nil => exact absurd rfl ha
  | cons x xs => rfl

/-- Cleaning a directory before appending a further element changes nothing. -/
theorem clean_clean_append (x y : Str) (hx : x ≠ []) :
    path.Clean (path.Clean x ++ '/' :: y) = path.Clean (x ++ '/' :: y) := by
  have hcx := clean_ne_nil x
  rw [clean_of_ne_nil _ (by simp), clean_of_ne_nil (x ++ '/' :: y) (by simp),
    head_append_of_ne_nil _ _ hcx, head_append_of_ne_nil _ _ hx,
    cleanStack_append, cleanStack_append, cleanStack_append, cleanStack_append]
  by_cases h : x.head? = some '/'
  · rw [if_pos ((clean_head x hx).mpr h), if_pos h, cleanStack_clean true x hx (by simp [h])]
  · rw [if_neg (fun hh => h ((clean_head x hx).mp hh)), if_neg h,
      cleanStack_clean false x hx (by simp [h])]

/-- The path `fileOutputFromNode` writes is the path `Files` probes. -/
theorem join_join (base bucket fileName : Str) :
    path.Join [path.Join [base, "data".toList, bucket], fileName]
      = path.Join [base, "data".toList, bucket, fileName] := by
  have h3 : ∀ d : Str, d ≠ [] → path.Join [d, fileName] = path.Clean (d ++ '/' :: fileName) := by
    intro d hd
    simp [path.Join, strings.Join, hd]
  by_cases hb : base = []
  · subst hb
    have h1 : path.Join [[], "data".toList, bucket]
        = path.Clean ("data".toList ++ '/' :: bucket) := by
      simp [path.Join, strings.Join]
    have h2 : path.Join [[], "data".toList, bucket, fileName]
        = path.Clean (("data".toList ++ '/' :: bucket) ++ '/' :: fileName) := by
      simp [path.Join, strings.Join]
    rw [h1, h2, h3 _ (clean_ne_nil _)]
    exact clean_clean_append _ _ (by simp)
  · have h1 : path.Join [base, "data".toList, bucket]
        = path.Clean (base ++ '/' :: ("data".toList ++ '/' :: bucket)) := by
      simp [path.Join, strings.Join, hb]
    have h2 : path.Join [base, "data".toList, bucket, fileName]
        = path.Clean ((base ++ '/' :: ("data".toList ++ '/' :: bucket)) ++ '/' :: fileName) := by
      simp [path.Join, strings.Join, hb]
    rw [h1, h2, h3 _ (clean_ne_nil _)]
    exact clean_clean_append _ _ (by simp [hb])

/-! ## The handler, branch by branch -/

theorem existsPath_eq (env : Env) (ctx : Context) (p : Str) :
    existsPath env ctx p = (statFinds env ctx.fs p, ctx.call (Event.stat p)) := by
  unfold existsPath statFinds
  simp only [Context.call]
  cases os.Stat env ctx.fs p with
  | none => rfl
  | some err =>
    simp only
    cases os.IsExist err <;> simp

theorem statFinds_absent (env : Env) (fs : FS) (p : Str) (h : fs.lookup p = none) :
    statFinds env fs p = false := by
  simp [statFinds, os.Stat, h, os.IsExist]

theorem statFinds_present (env : Env) (fs : FS) (p : Str) (n : Node)
    (h : fs.lookup p = some n) (hstat : env.statErr p = none) :
    statFinds env fs p = true := by
  simp [statFinds, os.Stat, h, hstat]

theorem metadata_fst (env : Env) (ctx ctx2 : Context) (b f : Str) :
    (getFileMetadataFromFile env ctx b f).1 = (getFileMetadataFromFile env ctx2 b f).1 := by
  unfold getFileMetadataFromFile
  cases env.redisClient with
  | none => rfl
  | some redis =>
    simp only
    cases redis (b ++ "/".toList ++ f) with
    | error e => rfl
    | ok body =>
      simp only
      cases env.unmarshal body <;> rfl

theorem metadata_snd (env : Env) (ctx : Context) (b f : Str) :
    (getFileMetadataFromFile env ctx b f).2 =
      { ctx with log := ctx.log ++ Event.getClient ::
          (match env.redisClient with
            | none => []
            | some _ => [Event.redisGet (b ++ "/".toList ++ f)]) } := by
  unfold getFileMetadataFromFile
  cases env.redisClient with
  | none => simp [Context.call]
  | some redis =>
    simp only
    cases redis (b ++ "/".toList ++ f) with
    | error e => simp [Context.call]
    | ok body =>
      simp only
      cases env.unmarshal body <;> simp [Context.call]

theorem metadata_eq (env : Env) (uriPath : Str) (ctx : Context) :
    getFileMetadataFromFile env ctx (requestPath uriPath).Bucket (requestPath uriPath).FileName
      = (metadataOf env uriPath,
          { ctx with log := ctx.log ++ metadataCalls env uriPath }) := by
  have h := metadata_snd env ctx (requestPath uriPath).Bucket (requestPath uriPath).FileName
  have h1 := metadata_fst env ctx (request uriPath [])
    (requestPath uriPath).Bucket (requestPath uriPath).FileName
  exact Prod.ext h1 h

theorem Files_bad (env : Env) (ctx : Context) (h : (strings.Split ctx.uriPath '/').length < 2) :
    Files env ctx = output.Json ctx ErrorCode.IllegalParam none := by
  unfold Files
  simp only [h, if_true]

/-- The handler on a well-formed path, by the outcome of the metadata lookup. -/
theorem Files_good (env : Env) (uriPath : Str) (fs : FS)
    (h : 2 ≤ (strings.Split uriPath '/').length) :
    Files env (request uriPath fs) =
      match metadataOf env uriPath with
      | .error err =>
        { uriPath := uriPath,
          writer := { status := [http.StatusOK, http.StatusNotFound], header := [], body := [],
                      json := [(ErrorCode.ErrorGetFileMetadata, some err)] },
          fs := fs,
          log := metadataCalls env uriPath,
          panic := none }
      | .ok none =>
        { uriPath := uriPath,
          writer := { status := [http.StatusOK], header := [], body := [], json := [] },
          fs := fs,
          log := metadataCalls env uriPath,
          panic := some "invalid memory address or nil pointer dereference".toList }
      | .ok (some md) =>
        if statFinds env fs (cachePath env uriPath) then
          fileOutput env (probedContext env uriPath fs md) (cachePath env uriPath)
        else
          fileOutputFromNode env (probedContext env uriPath fs md)
            (requestPath uriPath).Bucket (requestPath uriPath).FileName := by
  unfold Files
  have hge : ¬ (strings.Split (request uriPath fs).uriPath '/').length < 2 := by
    simp only [request]; omega
  simp only [hge, if_false]
  have hp : urlPath (strings.Split (request uriPath fs).uriPath '/') = requestPath uriPath := rfl
  rw [hp, metadata_eq]
  cases hm : metadataOf env uriPath with
  | error err =>
    simp [request, Context.WriteHeader, output.Json]
  | ok r =>
    cases r with
    | none => simp [request, Context.WriteHeader]
    | some md =>
      simp only [existsPath_eq]
      simp only [request, Context.WriteHeader, Context.HeaderAdd, Context.call, cachePath,
        probedContext, responseHeaders, List.nil_append, List.cons_append, List.append_assoc]
      cases statFinds env fs (path.Join [env.base, "data".toList, (requestPath uriPath).Bucket,
        (requestPath uriPath).FileName]) <;> simp

theorem lookup_set_self (fs : FS) (p : Str) (n : Node) : (fs.set p n).lookup p = some n := by
  simp [FS.set, FS.lookup]

/-! ### fileOutput -/

theorem fileOutput_eq (env : Env) (ctx : Context) (fp : Str) :
    fileOutput env ctx fp =
      match os.Open env ctx.fs fp with
      | .error err =>
        { ctx with
          writer := { ctx.writer with
            status := ctx.writer.status ++ [http.StatusNotFound],
            json := ctx.writer.json ++ [(ErrorCode.ErrorFileOpen, some err)] },
          log := ctx.log ++ [Event.osOpen fp] }
      | .ok (Reader.failing msg) =>
        { ctx with
          writer := { ctx.writer with
            status := ctx.writer.status ++ [http.StatusNotFound],
            json := ctx.writer.json ++ [(ErrorCode.ErrorFileRead, some msg)] },
          log := ctx.log ++ [Event.osOpen fp] }
      | .ok (Reader.bytes content) =>
        match env.copyErr with
        | some (n, msg) =>
          { ctx with
            writer := { ctx.writer with
              status := ctx.writer.status ++ [http.StatusNotFound],
              body := ctx.writer.body ++ content.take n,
              json := ctx.writer.json ++ [(ErrorCode.ErrorFileRead, some msg)] },
            log := ctx.log ++ [Event.osOpen fp] }
        | none =>
          { ctx with
            writer := { ctx.writer with body := ctx.writer.body ++ content },
            log := ctx.log ++ [Event.osOpen fp] } := by
  unfold fileOutput
  simp only [Context.call]
  cases os.Open env ctx.fs fp with
  | error err => simp [Context.WriteHeader, output.Json]
  | ok file =>
    cases file with
    | failing msg => simp [ioCopy, Context.WriteHeader, output.Json]
    | bytes content =>
      cases hc : env.copyErr with
      | none => simp [ioCopy, hc]
      | some e =>
        obtain ⟨n, msg⟩ := e
        simp [ioCopy, hc, Context.WriteHeader, output.Json]

theorem fileOutput_fs (env : Env) (ctx : Context) (fp : Str) :
    (fileOutput env ctx fp).fs = ctx.fs := by
  rw [fileOutput_eq]
  cases os.Open env ctx.fs fp with
  | error err => rfl
  | ok file =>
    cases file with
    | failing msg => rfl
    | bytes content =>
      cases env.copyErr with
      | none => rfl
      | some e => rfl

theorem fileOutput_panic (env : Env) (ctx : Context) (fp : Str) :
    (fileOutput env ctx fp).panic = ctx.panic := by
  rw [fileOutput_eq]
  cases os.Open env ctx.fs fp with
  | error err => rfl
  | ok file =>
    cases file with
    | failing msg => rfl
    | bytes content =>
      cases env.copyErr with
      | none => rfl
      | some e => rfl

theorem fileOutput_log (env : Env) (ctx : Context) (fp : Str) :
    (fileOutput env ctx fp).log = ctx.log ++ [Event.osOpen fp] := by
  rw [fileOutput_eq]
  cases os.Open env ctx.fs fp with
  | error err => rfl
  | ok file =>
    cases file with
    | failing msg => rfl
    | bytes content =>
      cases env.copyErr with
      | none => rfl
      | some e => rfl

theorem fileOutput_header (env : Env) (ctx : Context) (fp : Str) :
    (fileOutput env ctx fp).writer.header = ctx.writer.header := by
  rw [fileOutput_eq]
  cases os.Open env ctx.fs fp with
  | error err => rfl
  | ok file =>
    cases file with
    | failing msg => rfl
    | bytes content =>
      cases env.copyErr with
      | none => rfl
      | some e => rfl

theorem fileOutput_json (env : Env) (ctx : Context) (fp : Str) :
    ∀ j ∈ (fileOutput env ctx fp).writer.json,
      j ∈ ctx.writer.json ∨ j.1 ≠ ErrorCode.IllegalParam := by
  rw [fileOutput_eq]
  cases os.Open env ctx.fs fp with
  | error err =>
    intro j hj
    simp only [List.mem_append, List.mem_singleton] at hj
    rcases hj with hj | rfl
    · exact Or.inl hj
    · exact Or.inr (by simp)
  | ok file =>
    cases file with
    | failing msg =>
      intro j hj
      simp only [List.mem_append, List.mem_singleton] at hj
      rcases hj with hj | rfl
      · exact Or.inl hj
      · exact Or.inr (by simp)
    | bytes content =>
      cases env.copyErr with
      | none => exact fun j hj => Or.inl hj
      | some e =>
        intro j hj
        simp only [List.mem_append, List.mem_singleton] at hj
        rcases hj with hj | rfl
        · exact Or.inl hj
        · exact Or.inr (by simp)

theorem open_file (env : Env) (fs : FS) (fp : Str) (content : Bytes)
    (hf : fs.lookup fp = some (Node.file content)) (ho : env.openErr fp = none) :
    os.Open env fs fp = .ok (Reader.bytes content) := by
  simp [os.Open, hf, ho]

/-! ### fileOutputFromNode -/

theorem fileOutputFromNode_eq (env : Env) (ctx : Context) (b f : Str) :
    fileOutputFromNode env ctx b f =
      match env.download b f with
      | .error err =>
        { ctx with
          writer := { ctx.writer with
            status := ctx.writer.status ++ [http.StatusNotFound],
            json := ctx.writer.json ++ [(ErrorCode.ErrorDownloadFile, some err)] },
          log := ctx.log ++ [Event.download b f] }
      | .ok content =>
        let dirPath := path.Join [env.base, "data".toList, b]
        let target := path.Join [dirPath, f]
        let fs1 := if statFinds env ctx.fs dirPath then ctx.fs
          else (os.MkdirAll env ctx.fs dirPath).1
        let log1 := ctx.log ++ [Event.download b f, Event.stat dirPath]
          ++ (if statFinds env ctx.fs dirPath then [] else [Event.mkdirAll dirPath])
          ++ [Event.create target]
        match env.createErr target with
        | some err =>
          { ctx with
            writer := { ctx.writer with
              status := ctx.writer.status ++ [http.StatusNotFound],
              json := ctx.writer.json ++ [(ErrorCode.ErrorCreateFile, some err)] },
            fs := fs1, log := log1 }
        | none =>
          match env.writeErr target with
          | some (n, msg) =>
            { ctx with
              writer := { ctx.writer with
                status := ctx.writer.status ++ [http.StatusNotFound],
                json := ctx.writer.json ++ [(ErrorCode.ErrorWriteFile, some msg)] },
              fs := (fs1.set target (Node.file [])).set target (Node.file (content.take n)),
              log := log1 ++ [Event.write target content] }
          | none =>
            match env.copyErr with
            | some (n, msg) =>
              { ctx with
                writer := { ctx.writer with
                  status := ctx.writer.status ++ [http.StatusNotFound],
                  body := ctx.writer.body ++ content.take n,
                  json := ctx.writer.json ++ [(ErrorCode.ErrorFileRead, some msg)] },
                fs := (fs1.set target (Node.file [])).set target (Node.file content),
                log := log1 ++ [Event.write target content] }
            | none =>
              { ctx with
                writer := { ctx.writer with body := ctx.writer.body ++ content },
                fs := (fs1.set target (Node.file [])).set target (Node.file content),
                log := log1 ++ [Event.write target content] } := by
  unfold fileOutputFromNode
  cases env.download b f with
  | error err => simp [Context.call, Context.WriteHeader, output.Json]
  | ok content =>
    simp only [existsPath_eq, Context.call]
    cases hd : statFinds env ctx.fs (path.Join [env.base, "data".toList, b]) <;>
    · simp only [os.Create]
      cases hc : env.createErr
          (path.Join [path.Join [env.base, "data".toList, b], f]) with
      | some err => simp [hd, Context.WriteHeader, output.Json]
      | none =>
        simp only [os.FileWrite]
        cases hw : env.writeErr
            (path.Join [path.Join [env.base, "data".toList, b], f]) with
        | some e =>
          obtain ⟨n, msg⟩ := e
          simp [hd, Context.WriteHeader, output.Json]
        | none =>
          cases hcp : env.copyErr with
          | some e =>
            obtain ⟨n, msg⟩ := e
            simp [hd, hcp, ioCopy, Context.WriteHeader, output.Json]
          | none =>
            simp [hd, hcp, ioCopy]

theorem fileOutputFromNode_header (env : Env) (ctx : Context) (b f : Str) :
    (fileOutputFromNode env ctx b f).writer.header = ctx.writer.header := by
  rw [fileOutputFromNode_eq]
  cases env.download b f with
  | error err => rfl
  | ok content =>
    simp only
    cases env.createErr (path.Join [path.Join [env.base, "data".toList, b], f]) with
    | some err => rfl
    | none =>
      cases env.writeErr (path.Join [path.Join [env.base, "data".toList, b], f]) with
      | some e => rfl
      | none =>
        cases env.copyErr with
        | some e => rfl
        | none => rfl

theorem mem_snoc_code (js : List (ErrorCode × Option Str)) (c : ErrorCode) (d : Option Str)
    (hc : c ≠ ErrorCode.IllegalParam) :
    ∀ j ∈ js ++ [(c, d)], j ∈ js ∨ j.1 ≠ ErrorCode.IllegalParam := by
  intro j hj
  simp only [List.mem_append, List.mem_singleton] at hj
  rcases hj with hj | rfl
  · exact Or.inl hj
  · exact Or.inr hc

theorem fileOutputFromNode_json (env : Env) (ctx : Context) (b f : Str) :
    ∀ j ∈ (fileOutputFromNode env ctx b f).writer.json,
      j ∈ ctx.writer.json ∨ j.1 ≠ ErrorCode.IllegalParam := by
  rw [fileOutputFromNode_eq]
  cases env.download b f with
  | error err => exact mem_snoc_code _ _ _ (by simp)
  | ok content =>
    simp only
    cases env.createErr (path.Join [path.Join [env.base, "data".toList, b], f]) with
    | some err => exact mem_snoc_code _ _ _ (by simp)
    | none =>
      cases env.writeErr (path.Join [path.Join [env.base, "data".toList, b], f]) with
      | some e => exact mem_snoc_code _ _ _ (by simp)
      | none =>
        cases env.copyErr with
        | some e => exact mem_snoc_code _ _ _ (by simp)
        | none => exact fun j hj => Or.inl hj

theorem fileOutputFromNode_downloads (env : Env) (ctx : Context) (b f : Str) :
    (fileOutputFromNode env ctx b f).log.filter Event.isDownload
      = ctx.log.filter Event.isDownload ++ [Event.download b f] := by
  rw [fileOutputFromNode_eq]
  cases env.download b f with
  | error err => simp [List.filter_append, Event.isDownload]
  | ok content =>
    simp only
    cases env.createErr (path.Join [path.Join [env.base, "data".toList, b], f]) with
    | some err =>
      by_cases hd : statFinds env ctx.fs (path.Join [env.base, "data".toList, b]) <;>
        simp [List.filter_append, Event.isDownload, hd]
    | none =>
      cases env.writeErr (path.Join [path.Join [env.base, "data".toList, b], f]) with
      | some e =>
        by_cases hd : statFinds env ctx.fs (path.Join [env.base, "data".toList, b]) <;>
          simp [List.filter_append, Event.isDownload, hd]
      | none =>
        cases env.copyErr with
        | some e =>
          by_cases hd : statFinds env ctx.fs (path.Join [env.base, "data".toList, b]) <;>
            simp [List.filter_append, Event.isDownload, hd]
        | none =>
          by_cases hd : statFinds env ctx.fs (path.Join [env.base, "data".toList, b]) <;>
            simp [List.filter_append, Event.isDownload, hd]

/-- The remote fetch when download, creation and write succeed. -/
theorem fileOutputFromNode_ok (env : Env) (ctx : Context) (b f : Str) (content : Bytes)
    (hdl : env.download b f = .ok content)
    (hcreate : env.createErr (path.Join [env.base, "data".toList, b, f]) = none)
    (hwrite : env.writeErr (path.Join [env.base, "data".toList, b, f]) = none) :
    (fileOutputFromNode env ctx b f).fs.lookup (path.Join [env.base, "data".toList, b, f])
        = some (Node.file content) ∧
    Event.write (path.Join [env.base, "data".toList, b, f]) content
        ∈ (fileOutputFromNode env ctx b f).log ∧
    (fileOutputFromNode env ctx b f).writer =
      match env.copyErr with
      | some (n, msg) =>
        { ctx.writer with
          status := ctx.writer.status ++ [http.StatusNotFound],
          body := ctx.writer.body ++ content.take n,
          json := ctx.writer.json ++ [(ErrorCode.ErrorFileRead, some msg)] }
      | none => { ctx.writer with body := ctx.writer.body ++ content } := by
  rw [fileOutputFromNode_eq, hdl]
  simp only [join_join, hcreate, hwrite]
  cases env.copyErr with
  | some e => exact ⟨lookup_set_self _ _ _, by simp, rfl⟩
  | none => exact ⟨lookup_set_self _ _ _, by simp, rfl⟩

/-- The local read when the cached file opens. -/
theorem fileOutput_ok (env : Env) (ctx : Context) (fp : Str) (content : Bytes)
    (hf : ctx.fs.lookup fp = some (Node.file content)) (ho : env.openErr fp = none) :
    (fileOutput env ctx fp).writer =
      match env.copyErr with
      | some (n, msg) =>
        { ctx.writer with
          status := ctx.writer.status ++ [http.StatusNotFound],
          body := ctx.writer.body ++ content.take n,
          json := ctx.writer.json ++ [(ErrorCode.ErrorFileRead, some msg)] }
      | none => { ctx.writer with body := ctx.writer.body ++ content } := by
  rw [fileOutput_eq, open_file env ctx.fs fp content hf ho]
  cases env.copyErr with
  | some e => rfl
  | none => rfl

/-! ### Files -/

theorem Files_hit (env : Env) (uriPath : Str) (fs : FS) (md : UploadFileInfo)
    (hparse : 2 ≤ (strings.Split uriPath '/').length)
    (hmeta : metadataOf env uriPath = .ok (some md))
    (hfound : statFinds env fs (cachePath env uriPath) = true) :
    Files env (request uriPath fs) =
      fileOutput env (probedContext env uriPath fs md) (cachePath env uriPath) := by
  rw [Files_good env uriPath fs hparse, hmeta]
  simp only [hfound, if_true]

theorem Files_miss (env : Env) (uriPath : Str) (fs : FS) (md : UploadFileInfo)
    (hparse : 2 ≤ (strings.Split uriPath '/').length)
    (hmeta : metadataOf env uriPath = .ok (some md))
    (hfound : statFinds env fs (cachePath env uriPath) = false) :
    Files env (request uriPath fs) =
      fileOutputFromNode env (probedContext env uriPath fs md)
        (requestPath uriPath).Bucket (requestPath uriPath).FileName := by
  rw [Files_good env uriPath fs hparse, hmeta]
  simp [hfound]

theorem Files_header (env : Env) (uriPath : Str) (fs : FS) (md : UploadFileInfo)
    (hparse : 2 ≤ (strings.Split uriPath '/').length)
    (hmeta : metadataOf env uriPath = .ok (some md)) :
    (Files env (request uriPath fs)).writer.header
      = responseHeaders md (requestPath uriPath).FileName := by
  cases hl : statFinds env fs (cachePath env uriPath) with
  | false =>
    rw [Files_miss env uriPath fs md hparse hmeta hl, fileOutputFromNode_header]
    rfl
  | true =>
    rw [Files_hit env uriPath fs md hparse hmeta hl, fileOutput_header]
    rfl

theorem probed_log_filter (env : Env) (uriPath : Str) (fs : FS) (md : UploadFileInfo)
    (q : Event → Bool) (h1 : q Event.getClient = false)
    (h2 : ∀ k, q (Event.redisGet k) = false) :
    (probedContext env uriPath fs md).log.filter q
      = [Event.stat (cachePath env uriPath)].filter q := by
  simp only [probedContext, metadataCalls]
  cases env.redisClient <;> simp [List.filter_append, List.filter_cons, h1, h2]

theorem probed_log_metadata (env : Env) (uriPath : Str) (fs : FS) (md : UploadFileInfo) :
    (probedContext env uriPath fs md).log.filter Event.isMetadata
      = metadataCalls env uriPath := by
  simp only [probedContext, metadataCalls]
  cases env.redisClient <;> simp [List.filter_append, List.filter_cons, Event.isMetadata]

/-! ## Content type -/

theorem contentTypes_lookup_none (k : Str) (h : '.' ∉ k) : contentTypes.lookup k = none := by
  have h1 : k ≠ ".gif".toList := fun e => h (e ▸ by decide)
  have h2 : k ≠ ".png".toList := fun e => h (e ▸ by decide)
  have h3 : k ≠ ".jpg".toList := fun e => h (e ▸ by decide)
  have h4 : k ≠ ".pdf".toList := fun e => h (e ▸ by decide)
  have h5 : k ≠ ".xml".toList := fun e => h (e ▸ by decide)
  simp only [contentTypes, List.lookup, beq_eq_false_iff_ne.mpr h1, beq_eq_false_iff_ne.mpr h2,
    beq_eq_false_iff_ne.mpr h3, beq_eq_false_iff_ne.mpr h4, beq_eq_false_iff_ne.mpr h5]

theorem split_getD_no_sep (s : Str) (c : Char) (i : Nat) :
    c ∉ (strings.Split s c).getD i [] := by
  rw [List.getD_eq_getElem?_getD]
  cases h : (strings.Split s c)[i]? with
  | none => simp
  | some seg =>
    simp only [Option.getD_some]
    exact split_no_sep s c seg (List.getElem?_mem h)

theorem contentTypeValue_eq (header fileName : Str) :
    contentTypeValue header fileName
      = if header ≠ [] then (strings.Split header ':').getLastD [] else [] := by
  unfold contentTypeValue
  have hlen : (strings.Split header ':').length > 0 :=
    List.length_pos.mpr (split_ne_nil header ':')
  simp only [hlen, if_true, contentTypes_lookup_none _ (split_getD_no_sep fileName '.' 1)]
  split <;> rfl

theorem getLastD_eq_getLast (l : List Str) (h : l ≠ []) : l.getLastD [] = l.getLast h := by
  cases l with
  | nil => exact absurd rfl h
  | cons a t => rw [List.getLastD_cons, List.getLast_eq_getLastD]

theorem fileOutputFromNode_metadata_calls (env : Env) (ctx : Context) (b f : Str) :
    (fileOutputFromNode env ctx b f).log.filter Event.isMetadata
      = ctx.log.filter Event.isMetadata := by
  rw [fileOutputFromNode_eq]
  cases env.download b f with
  | error err => simp [List.filter_append, Event.isMetadata]
  | ok content =>
    simp only
    cases env.createErr (path.Join [path.Join [env.base, "data".toList, b], f]) with
    | some err =>
      by_cases hd : statFinds env ctx.fs (path.Join [env.base, "data".toList, b]) <;>
        simp [List.filter_append, Event.isMetadata, hd]
    | none =>
      cases env.writeErr (path.Join [path.Join [env.base, "data".toList, b], f]) with
      | some e =>
        by_cases hd : statFinds env ctx.fs (path.Join [env.base, "data".toList, b]) <;>
          simp [List.filter_append, Event.isMetadata, hd]
      | none =>
        cases env.copyErr with
        | some e =>
          by_cases hd : statFinds env ctx.fs (path.Join [env.base, "data".toList, b]) <;>
            simp [List.filter_append, Event.isMetadata, hd]
        | none =>
          by_cases hd : statFinds env ctx.fs (path.Join [env.base, "data".toList, b]) <;>
            simp [List.filter_append, Event.isMetadata, hd]

/-- The calls `Files` makes to the metadata store for a well-formed path. -/
theorem Files_metadata_calls (env : Env) (uriPath : Str) (fs : FS)
    (hparse : 2 ≤ (strings.Split uriPath '/').length) :
    (Files env (request uriPath fs)).log.filter Event.isMetadata
      = metadataCalls env uriPath := by
  have hself : (metadataCalls env uriPath).filter Event.isMetadata
      = metadataCalls env uriPath := by
    unfold metadataCalls
    cases env.redisClient <;> simp [Event.isMetadata]
  rw [Files_good env uriPath fs hparse]
  cases hm : metadataOf env uriPath with
  | error err => exact hself
  | ok r =>
    cases r with
    | none => exact hself
    | some md =>
      simp only
      split
      · rw [fileOutput_log, List.filter_append, probed_log_metadata]
        simp [Event.isMetadata]
      · rw [fileOutputFromNode_metadata_calls, probed_log_metadata]

theorem Files_json_codes (env : Env) (uriPath : Str) (fs : FS)
    (hparse : 2 ≤ (strings.Split uriPath '/').length) :
    ∀ j ∈ (Files env (request uriPath fs)).writer.json, j.1 ≠ ErrorCode.IllegalParam := by
  rw [Files_good env uriPath fs hparse]
  cases hm : metadataOf env uriPath with
  | error err =>
    intro j hj
    simp only [List.mem_singleton] at hj
    subst hj
    simp
  | ok r =>
    cases r with
    | none =>
      intro j hj
      simp at hj
    | some md =>
      simp only
      intro j hj
      split at hj
      · rcases fileOutput_json _ _ _ j hj with h | h
        · simp [probedContext] at h
        · exact h
      · rcases fileOutputFromNode_json _ _ _ _ j hj with h | h
        · simp [probedContext] at h
        · exact h

theorem head_dropWhile (l : Str) (c : Char) :
    (l.dropWhile (fun x => decide (x = c))).head? ≠ some c := by
  induction l with
  | nil => simp
  | cons x xs ih =>
    by_cases h : x = c
    · simpa [List.dropWhile, h] using ih
    · simp [List.dropWhile, h]

theorem takeWhile_replicate (l : Str) (c : Char) :
    ∃ k, l.takeWhile (fun x => decide (x = c)) = List.replicate k c := by
  induction l with
  | nil => exact ⟨0, rfl⟩
  | cons x xs ih =>
    by_cases h : x = c
    · obtain ⟨k, hk⟩ := ih
      exact ⟨k + 1, by simp [List.takeWhile, h, hk, List.replicate]⟩
    · exact ⟨0, by simp [List.takeWhile, h]⟩

theorem trimLeft_slash (s : Str) :
    strings.TrimLeft s "/".toList = s.dropWhile (fun x => decide (x = '/')) := by
  unfold strings.TrimLeft
  congr 1
  funext x
  simp

theorem requestPath_fileName (uriPath : Str) :
    (requestPath uriPath).FileName
      = (strings.Split uriPath '/').getLast (split_ne_nil uriPath '/') :=
  getLastD_eq_getLast _ _

theorem requestPath_bucket (uriPath : Str) :
    (requestPath uriPath).Bucket
      = (strings.Join (strings.Split uriPath '/').dropLast ['/']).dropWhile
          (fun x => decide (x = '/')) := by
  simp only [requestPath, urlPath]
  rw [trimLeft_slash, List.dropLast_eq_take]
  rfl

theorem requestPath_decompose (uriPath : Str)
    (hparse : 2 ≤ (strings.Split uriPath '/').length) :
    ∃ k, uriPath = List.replicate k '/' ++ (requestPath uriPath).Bucket
      ++ '/' :: (requestPath uriPath).FileName := by
  have hne := split_ne_nil uriPath '/'
  have hinit : (strings.Split uriPath '/').dropLast ≠ [] := by
    intro h
    have := congrArg List.length h
    simp only [List.length_dropLast, List.length_nil] at this
    omega
  have hj := join_split uriPath '/'
  rw [← List.dropLast_append_getLast hne, join_append_singleton _ _ _ hinit] at hj
  obtain ⟨k, hk⟩ := takeWhile_replicate
    (strings.Join (strings.Split uriPath '/').dropLast ['/']) '/'
  refine ⟨k, ?_⟩
  rw [requestPath_fileName, requestPath_bucket, ← hk, List.takeWhile_append_dropWhile]
  conv_lhs => rw [← hj]
  simp

theorem metadataOf_eq (env : Env) (uriPath : Str) :
    metadataOf env uriPath =
      match env.redisClient with
      | none => .error "redis not match".toList
      | some redis =>
        match redis ((requestPath uriPath).Bucket ++ "/".toList
            ++ (requestPath uriPath).FileName) with
        | .error err => .error err
        | .ok body => env.unmarshal body := by
  unfold metadataOf getFileMetadataFromFile
  cases env.redisClient with
  | none => rfl
  | some redis =>
    simp only
    cases redis ((requestPath uriPath).Bucket ++ "/".toList
        ++ (requestPath uriPath).FileName) with
    | error e => rfl
    | ok body =>
      simp only
      cases env.unmarshal body <;> rfl

/-- The three ways the metadata lookup fails: no store configured, the store's `Get`
fails (key absent, transport error), or the stored value does not decode. -/
theorem metadataOf_error_iff (env : Env) (uriPath err : Str) :
    metadataOf env uriPath = .error err ↔
      (env.redisClient = none ∧ err = "redis not match".toList) ∨
      (∃ redis, env.redisClient = some redis ∧
        (redis ((requestPath uriPath).Bucket ++ "/".toList ++ (requestPath uriPath).FileName)
            = .error err ∨
          ∃ body,
            redis ((requestPath uriPath).Bucket ++ "/".toList
              ++ (requestPath uriPath).FileName) = .ok body ∧
            env.unmarshal body = .error err)) := by
  rw [metadataOf_eq]
  cases hr : env.redisClient with
  | none =>
    constructor
    · intro h
      exact Or.inl ⟨rfl, (Except.error.inj h).symm⟩
    · rintro (⟨-, h⟩ | ⟨redis, h, -⟩)
      · rw [h]
      · exact absurd h (by simp)
  | some redis =>
    simp only
    cases hg : redis ((requestPath uriPath).Bucket ++ "/".toList
        ++ (requestPath uriPath).FileName) with
    | error e =>
      show Except.error e = Except.error err ↔ _
      constructor
      · intro h
        exact Or.inr ⟨redis, rfl, Or.inl (by rw [hg, Except.error.inj h])⟩
      · rintro (⟨h, -⟩ | ⟨r, hr2, h | ⟨body, h, -⟩⟩)
        · exact absurd h (by simp)
        · cases hr2
          rw [hg] at h
          rw [Except.error.inj h]
        · cases hr2
          rw [hg] at h
          exact absurd h (by simp)
    | ok body =>
      show env.unmarshal body = Except.error err ↔ _
      constructor
      · intro h
        exact Or.inr ⟨redis, rfl, Or.inr ⟨body, hg, h⟩⟩
      · rintro (⟨h, -⟩ | ⟨r, hr2, h | ⟨body2, h, hu⟩⟩)
        · exact absurd h (by simp)
        · cases hr2
          rw [hg] at h
          exact absurd h (by simp)
        · cases hr2
          rw [hg] at h
          cases h
          exact hu

/-! ## The claims -/

/-- C5: for every request path that splits on `/` into at least two segments, `file_name` is
the last segment and `bucket` is the join of all prior segments with its leading `/`
characters stripped; `file_name` contains no `/`, `bucket` does not begin with `/`, the
request path is `bucket + "/" + file_name` up to leading slashes, and every key `Files`
asks the metadata store for is `bucket + "/" + file_name` (asked whenever a store is
configured). -/
theorem C5_path_resolution (env : Env) (fs : FS) (uriPath : Str)
    (hparse : 2 ≤ (strings.Split uriPath '/').length) :
    (requestPath uriPath).FileName
        = (strings.Split uriPath '/').getLast (split_ne_nil uriPath '/') ∧
    (requestPath uriPath).Bucket
        = (strings.Join (strings.Split uriPath '/').dropLast ['/']).dropWhile
            (fun x => decide (x = '/')) ∧
    '/' ∉ (requestPath uriPath).FileName ∧
    (requestPath uriPath).Bucket.head? ≠ some '/' ∧
    (∃ k, uriPath = List.replicate k '/' ++ (requestPath uriPath).Bucket
        ++ '/' :: (requestPath uriPath).FileName) ∧
    (∀ key, Event.redisGet key ∈ (Files env (request uriPath fs)).log →
        key = (requestPath uriPath).Bucket ++ '/' :: (requestPath uriPath).FileName) ∧
    (env.redisClient.isSome = true →
        Event.redisGet ((requestPath uriPath).Bucket ++ '/' :: (requestPath uriPath).FileName)
          ∈ (Files env (request uriPath fs)).log) := by
  have hcalls := Files_metadata_calls env uriPath fs hparse
  refine ⟨requestPath_fileName uriPath, requestPath_bucket uriPath, ?_, ?_,
    requestPath_decompose uriPath hparse, ?_, ?_⟩
  · rw [requestPath_fileName]
    exact split_no_sep uriPath '/' _ (List.getLast_mem _)
  · rw [requestPath_bucket]
    exact head_dropWhile _ _
  · intro key hkey
    have hmem : Event.redisGet key
        ∈ (Files env (request uriPath fs)).log.filter Event.isMetadata :=
      List.mem_filter.mpr ⟨hkey, rfl⟩
    rw [hcalls, metadataCalls] at hmem
    cases hr : env.redisClient with
    | none => simp [hr] at hmem
    | some redis => simpa [hr] using hmem
  · intro hsome
    have hmem : Event.redisGet
        ((requestPath uriPath).Bucket ++ '/' :: (requestPath uriPath).FileName)
        ∈ (Files env (request uriPath fs)).log.filter Event.isMetadata := by
      rw [hcalls, metadataCalls]
      cases hr : env.redisClient with
      | none => simp [hr] at hsome
      | some redis => simp
    exact (List.mem_filter.mp hmem).1

/-- C5 at the request path `//a//b/c/x.png`: bucket `a//b/c`, file name `x.png`. -/
theorem C5_path_resolution_witness :
    2 ≤ (strings.Split "//a//b/c/x.png".toList '/').length ∧
    (requestPath "//a//b/c/x.png".toList).Bucket = "a//b/c".toList ∧
    (requestPath "//a//b/c/x.png".toList).FileName = "x.png".toList ∧
    Event.redisGet "a//b/c/x.png".toList
      ∈ (Files (sampleEnv sampleMetadata) (request "//a//b/c/x.png".toList [])).log :=
  ⟨by decide, by decide, by decide,
    (C5_path_resolution (sampleEnv sampleMetadata) [] "//a//b/c/x.png".toList
      (by decide)).2.2.2.2.2.2 rfl⟩

/-- C6: a request path has fewer than two `/`-delimited segments exactly when it contains
no `/`; for such a path `Files` answers `IllegalParam` with no data and does nothing else
(no status, no header, no body, no call to the metadata store, the filesystem or the remote
node); and for a path with at least two segments no answer of `Files` carries
`IllegalParam`. -/
theorem C6_bad_path_rejected (env : Env) (fs : FS) (uriPath : Str) :
    ((strings.Split uriPath '/').length < 2 ↔ '/' ∉ uriPath) ∧
    ((strings.Split uriPath '/').length < 2 →
      (Files env (request uriPath fs)).writer
          = { status := [], header := [], body := [],
              json := [(ErrorCode.IllegalParam, none)] } ∧
      (Files env (request uriPath fs)).log = [] ∧
      (Files env (request uriPath fs)).fs = fs) ∧
    (2 ≤ (strings.Split uriPath '/').length →
      ∀ j ∈ (Files env (request uriPath fs)).writer.json, j.1 ≠ ErrorCode.IllegalParam) := by
  refine ⟨split_length_lt_two uriPath '/', ?_, Files_json_codes env uriPath fs⟩
  intro h
  rw [Files_bad env (request uriPath fs) h]
  exact ⟨rfl, rfl, rfl⟩

/-- C6 at the paths `x.png` (rejected) and `/b/x.png` (served). -/
theorem C6_bad_path_rejected_witness :
    (Files (sampleEnv sampleMetadata) (request "x.png".toList [])).writer.json
        = [(ErrorCode.IllegalParam, none)] ∧
    (Files (sampleEnv sampleMetadata) (request "x.png".toList [])).log = [] ∧
    (Files (sampleEnv sampleMetadata) (request "/b/x.png".toList [])).writer.json = [] :=
  ⟨((C6_bad_path_rejected (sampleEnv sampleMetadata) [] "x.png".toList).2.1 (by decide)).1
      ▸ rfl,
    ((C6_bad_path_rejected (sampleEnv sampleMetadata) [] "x.png".toList).2.1 (by decide)).2.1,
    by decide⟩

/-- C4: for every request whose path parses, if `getFileMetadataFromFile` fails, the answer
of `Files` is status 200 then 404 and the error `ErrorGetFileMetadata` with the failure's
message, with no header and no body; every call made is a call of the metadata store (no
`os.Stat`, no `os.Open`, no `Download`, no filesystem write), and the filesystem is
unchanged. -/
theorem C4_metadata_miss (env : Env) (fs : FS) (uriPath err : Str)
    (hparse : 2 ≤ (strings.Split uriPath '/').length)
    (hmeta : metadataOf env uriPath = .error err) :
    (Files env (request uriPath fs)).writer
        = { status := [http.StatusOK, http.StatusNotFound], header := [], body := [],
            json := [(ErrorCode.ErrorGetFileMetadata, some err)] } ∧
    (∀ e ∈ (Files env (request uriPath fs)).log,
        e.isMetadata = true ∧ e.isProbe = false ∧ e.isDownload = false
          ∧ e.isFsWrite = false) ∧
    (Files env (request uriPath fs)).fs = fs := by
  rw [Files_good env uriPath fs hparse, hmeta]
  refine ⟨rfl, ?_, rfl⟩
  intro e he
  cases hr : env.redisClient with
  | none =>
    simp only [metadataCalls, hr, List.mem_singleton] at he
    subst he
    exact ⟨rfl, rfl, rfl, rfl⟩
  | some redis =>
    simp only [metadataCalls, hr, List.mem_cons, List.mem_singleton, List.not_mem_nil,
      or_false] at he
    rcases he with rfl | rfl <;> exact ⟨rfl, rfl, rfl, rfl⟩

/-- C4 at the request `/b/x.png` against a store that holds no key. -/
theorem C4_metadata_miss_witness :
    2 ≤ (strings.Split "/b/x.png".toList '/').length ∧
    metadataOf envKeyAbsent "/b/x.png".toList = .error "redis: nil".toList ∧
    (Files envKeyAbsent (request "/b/x.png".toList sampleCache)).writer.json
      = [(ErrorCode.ErrorGetFileMetadata, some "redis: nil".toList)] ∧
    (Files envKeyAbsent (request "/b/x.png".toList sampleCache)).fs = sampleCache :=
  ⟨by decide, rfl,
    congrArg Writer.json
      (C4_metadata_miss envKeyAbsent sampleCache "/b/x.png".toList "redis: nil".toList
        (by decide) rfl).1,
    (C4_metadata_miss envKeyAbsent sampleCache "/b/x.png".toList "redis: nil".toList
        (by decide) rfl).2.2⟩

/-- C10, as stated, fails: with no store configured the error data sent to the caller is
`redis not match`, with a store that holds no key it is the store's own message. -/
theorem C10_counterexample :
    2 ≤ (strings.Split "/b/x.png".toList '/').length ∧
    metadataOf envNoStore "/b/x.png".toList = .error "redis not match".toList ∧
    metadataOf envKeyAbsent "/b/x.png".toList = .error "redis: nil".toList ∧
    (Files envNoStore (request "/b/x.png".toList [])).writer.json
      = [(ErrorCode.ErrorGetFileMetadata, some "redis not match".toList)] ∧
    (Files envKeyAbsent (request "/b/x.png".toList [])).writer.json
      = [(ErrorCode.ErrorGetFileMetadata, some "redis: nil".toList)] ∧
    (Files envNoStore (request "/b/x.png".toList [])).writer
      ≠ (Files envKeyAbsent (request "/b/x.png".toList [])).writer :=
  ⟨by decide, rfl, rfl, by decide, by decide, by decide⟩

/-- C10, amended: for every parsed request and any two runs in which
`getFileMetadataFromFile` fails, the status writes (200, then 404), the headers (none), the
body (empty) and the error code (`ErrorGetFileMetadata`) sent to the caller are identical;
the data passed to `output.Json` is in each run the message of that run's failure. -/
theorem C10_metadata_failures_same_code (env1 env2 : Env) (fs1 fs2 : FS)
    (uriPath err1 err2 : Str)
    (hparse : 2 ≤ (strings.Split uriPath '/').length)
    (hmeta1 : metadataOf env1 uriPath = .error err1)
    (hmeta2 : metadataOf env2 uriPath = .error err2) :
    (Files env1 (request uriPath fs1)).writer.status
        = (Files env2 (request uriPath fs2)).writer.status ∧
    (Files env1 (request uriPath fs1)).writer.header
        = (Files env2 (request uriPath fs2)).writer.header ∧
    (Files env1 (request uriPath fs1)).writer.body
        = (Files env2 (request uriPath fs2)).writer.body ∧
    (Files env1 (request uriPath fs1)).writer.json.map Prod.fst
        = (Files env2 (request uriPath fs2)).writer.json.map Prod.fst ∧
    (Files env1 (request uriPath fs1)).writer.json
        = [(ErrorCode.ErrorGetFileMetadata, some err1)] ∧
    (Files env2 (request uriPath fs2)).writer.json
        = [(ErrorCode.ErrorGetFileMetadata, some err2)] := by
  rw [Files_good env1 uriPath fs1 hparse, Files_good env2 uriPath fs2 hparse, hmeta1, hmeta2]
  exact ⟨rfl, rfl, rfl, rfl, rfl, rfl⟩

/-- C10, amended, at the request `/b/x.png` without a store and with a store that holds
no key. -/
theorem C10_metadata_failures_same_code_witness :
    2 ≤ (strings.Split "/b/x.png".toList '/').length ∧
    metadataOf envNoStore "/b/x.png".toList = .error "redis not match".toList ∧
    metadataOf envKeyAbsent "/b/x.png".toList = .error "redis: nil".toList ∧
    (Files envNoStore (request "/b/x.png".toList [])).writer.status
      = (Files envKeyAbsent (request "/b/x.png".toList sampleCache)).writer.status ∧
    (Files envNoStore (request "/b/x.png".toList [])).writer.json.map Prod.fst
      = (Files envKeyAbsent (request "/b/x.png".toList sampleCache)).writer.json.map Prod.fst :=
  ⟨by decide, rfl, rfl,
    (C10_metadata_failures_same_code envNoStore envKeyAbsent [] sampleCache
      "/b/x.png".toList _ _ (by decide) rfl rfl).1,
    (C10_metadata_failures_same_code envNoStore envKeyAbsent [] sampleCache
      "/b/x.png".toList _ _ (by decide) rfl rfl).2.2.2.1⟩

/-- C7, the code at the failing input: with an empty metadata header and the file name
`x.png` the resolved content type is the empty string, not `image/png`; the keys of
`contentTypes` begin with a dot and the segments of the file name contain none, so the
table is never hit: with an empty header the content type is empty for every file name. -/
theorem C7_extension_fallback_never_hits :
    contentTypeValue [] "x.png".toList = [] ∧
    (Files (sampleEnv sampleMetadata) (request "/b/x.png".toList [])).writer.header.lookup
        "Content-Type".toList = some [] ∧
    (∀ fileName : Str, contentTypeValue [] fileName = []) :=
  ⟨by decide, by decide, fun fileName => by rw [contentTypeValue_eq]; simp⟩

/-- C8: for every request whose path parses and whose metadata lookup succeeds with a
record of non-empty header, the `Content-Type` header `Files` writes is the last `:`-separated segment
of the metadata header, also when that segment is empty; and so is the resolved content
type for every file name whatsoever. -/
theorem C8_header_precedence (env : Env) (fs : FS) (uriPath : Str) (md : UploadFileInfo)
    (hparse : 2 ≤ (strings.Split uriPath '/').length)
    (hmeta : metadataOf env uriPath = .ok (some md))
    (hheader : md.Header ≠ []) :
    (Files env (request uriPath fs)).writer.header.lookup "Content-Type".toList
        = some ((strings.Split md.Header ':').getLast (split_ne_nil md.Header ':')) ∧
    (∀ fileName : Str, contentTypeValue md.Header fileName
        = (strings.Split md.Header ':').getLast (split_ne_nil md.Header ':')) := by
  have hall : ∀ fileName : Str, contentTypeValue md.Header fileName
      = (strings.Split md.Header ':').getLast (split_ne_nil md.Header ':') := by
    intro fileName
    rw [contentTypeValue_eq, if_pos hheader, getLastD_eq_getLast]
  refine ⟨?_, hall⟩
  rw [Files_header env uriPath fs md hparse hmeta, responseHeaders, hall]
  simp [List.lookup]

/-- C8 at the header `a:b:image/png` and the request `/b/x.gif`: the content type is
`image/png`. -/
theorem C8_header_precedence_witness :
    2 ≤ (strings.Split "/b/x.gif".toList '/').length ∧
    metadataOf (sampleEnv sampleMetadataWithHeader) "/b/x.gif".toList
      = .ok (some sampleMetadataWithHeader) ∧
    sampleMetadataWithHeader.Header ≠ [] ∧
    (Files (sampleEnv sampleMetadataWithHeader)
        (request "/b/x.gif".toList [])).writer.header.lookup "Content-Type".toList
      = some "image/png".toList :=
  ⟨by decide, rfl, by decide,
    (C8_header_precedence (sampleEnv sampleMetadataWithHeader) [] "/b/x.gif".toList
      sampleMetadataWithHeader (by decide) rfl (by decide)).1.trans (by decide)⟩

/-- C9, as stated, fails twice: the header written from the metadata's etag is named
`e_tage`, and no header named `e_tag` is written; and when the stored value is the JSON
`null`, the lookup succeeds without error with a nil record, on which `Files` panics
before it writes any header. -/
theorem C9_counterexample :
    2 ≤ (strings.Split "/b/x.png".toList '/').length ∧
    (metadataOf (sampleEnv sampleMetadata) "/b/x.png".toList = .ok (some sampleMetadata) ∧
      (Files (sampleEnv sampleMetadata) (request "/b/x.png".toList [])).writer.header.map
          Prod.fst
        = ["Content-Type".toList, "e_tage".toList, "header_custom".toList,
            "file_size".toList, "file_extension".toList] ∧
      "e_tag".toList ∉
        (Files (sampleEnv sampleMetadata) (request "/b/x.png".toList [])).writer.header.map
          Prod.fst) ∧
    (metadataOf envNullRecord "/b/x.png".toList = .ok none ∧
      (Files envNullRecord (request "/b/x.png".toList sampleCache)).writer.header = [] ∧
      (Files envNullRecord (request "/b/x.png".toList sampleCache)).panic
        = some "invalid memory address or nil pointer dereference".toList) :=
  ⟨by decide, ⟨rfl, by decide, by decide⟩, ⟨rfl, by decide, by decide⟩⟩

/-- C9, amended: for every request whose path parses and whose metadata lookup succeeds
with a metadata record, the headers `Files` writes are exactly `Content-Type`, `e_tage`,
`header_custom`, `file_size`, `file_extension`, in this order and once each, with
`Content-Type` the resolved content type, `e_tage` the metadata's etag, `header_custom` its
header, `file_size` the decimal rendering of its file size and `file_extension` its file
extension; whatever the local cache and the remote node do afterwards. -/
theorem C9_response_headers (env : Env) (fs : FS) (uriPath : Str) (md : UploadFileInfo)
    (hparse : 2 ≤ (strings.Split uriPath '/').length)
    (hmeta : metadataOf env uriPath = .ok (some md)) :
    (Files env (request uriPath fs)).writer.header
      = [ ("Content-Type".toList, contentTypeValue md.Header (requestPath uriPath).FileName),
          ("e_tage".toList, md.ETage),
          ("header_custom".toList, md.Header),
          ("file_size".toList, fmt.Sprintf_d md.FileSize),
          ("file_extension".toList, md.FileExtension) ] :=
  Files_header env uriPath fs md hparse hmeta

/-- C9, amended, at the request `/b/x.png` served from the local cache. -/
theorem C9_response_headers_witness :
    2 ≤ (strings.Split "/b/x.png".toList '/').length ∧
    metadataOf (sampleEnv sampleMetadataWithHeader) "/b/x.png".toList
      = .ok (some sampleMetadataWithHeader) ∧
    (Files (sampleEnv sampleMetadataWithHeader)
        (request "/b/x.png".toList sampleCache)).writer.header
      = [ ("Content-Type".toList, "image/png".toList),
          ("e_tage".toList, "abc".toList),
          ("header_custom".toList, "a:b:image/png".toList),
          ("file_size".toList, "3".toList),
          ("file_extension".toList, ".gif".toList) ] :=
  ⟨by decide, rfl,
    (C9_response_headers (sampleEnv sampleMetadataWithHeader) sampleCache "/b/x.png".toList
      sampleMetadataWithHeader (by decide) rfl).trans (by decide)⟩

/-- C1, as stated, fails: download, creation and write succeed, but the response writer
fails after one byte; the payload `7 8 9` is in the cache, the body streamed is `7`,
followed by the error `ErrorFileRead`. -/
theorem C1_counterexample :
    2 ≤ (strings.Split "/b/x.png".toList '/').length ∧
    metadataOf envBrokenPipe "/b/x.png".toList = .ok (some sampleMetadata) ∧
    FS.lookup [] (cachePath envBrokenPipe "/b/x.png".toList) = none ∧
    envBrokenPipe.download "b".toList "x.png".toList = .ok [7, 8, 9] ∧
    envBrokenPipe.createErr (cachePath envBrokenPipe "/b/x.png".toList) = none ∧
    envBrokenPipe.writeErr (cachePath envBrokenPipe "/b/x.png".toList) = none ∧
    (Files envBrokenPipe (request "/b/x.png".toList [])).fs.lookup
        (cachePath envBrokenPipe "/b/x.png".toList) = some (Node.file [7, 8, 9]) ∧
    (Files envBrokenPipe (request "/b/x.png".toList [])).writer.body = [7] ∧
    (Files envBrokenPipe (request "/b/x.png".toList [])).writer.json
      = [(ErrorCode.ErrorFileRead, some "write: broken pipe".toList)] ∧
    (Files envBrokenPipe (request "/b/x.png".toList [])).writer.body ≠ [7, 8, 9] :=
  ⟨by decide, rfl, by decide, rfl, rfl, rfl, by decide, by decide, by decide, by decide⟩

/-- C1, amended: for every request whose path parses and whose metadata lookup succeeds
(with a record: on a nil record the handler panics before any download), if the local file
at `<base>/data/<bucket>/<file_name>` is absent and the remote `Download`, the local file
creation and the local write all succeed, then `Download` is invoked exactly once, with
that `(bucket, file_name)`, and its payload is what is written to and then held by
`<base>/data/<bucket>/<file_name>`; and when the copy to the response succeeds as well,
the response body is that payload, byte for byte, with status 200 and no error. -/
theorem C1_cache_miss (env : Env) (fs : FS) (uriPath : Str) (md : UploadFileInfo)
    (payload : Bytes)
    (hparse : 2 ≤ (strings.Split uriPath '/').length)
    (hmeta : metadataOf env uriPath = .ok (some md))
    (habsent : fs.lookup (cachePath env uriPath) = none)
    (hdownload : env.download (requestPath uriPath).Bucket (requestPath uriPath).FileName
      = .ok payload)
    (hcreate : env.createErr (cachePath env uriPath) = none)
    (hwrite : env.writeErr (cachePath env uriPath) = none) :
    (Files env (request uriPath fs)).log.filter Event.isDownload
        = [Event.download (requestPath uriPath).Bucket (requestPath uriPath).FileName] ∧
    Event.write (cachePath env uriPath) payload ∈ (Files env (request uriPath fs)).log ∧
    (Files env (request uriPath fs)).fs.lookup (cachePath env uriPath)
        = some (Node.file payload) ∧
    (env.copyErr = none →
      (Files env (request uriPath fs)).writer.body = payload ∧
      (Files env (request uriPath fs)).writer.status = [http.StatusOK] ∧
      (Files env (request uriPath fs)).writer.json = []) := by
  rw [Files_miss env uriPath fs md hparse hmeta (statFinds_absent env fs _ habsent)]
  obtain ⟨hfs, hlog, hw⟩ := fileOutputFromNode_ok env (probedContext env uriPath fs md)
    (requestPath uriPath).Bucket (requestPath uriPath).FileName payload hdownload hcreate hwrite
  refine ⟨?_, hlog, hfs, ?_⟩
  · rw [fileOutputFromNode_downloads,
      probed_log_filter env uriPath fs md Event.isDownload rfl (fun _ => rfl)]
    rfl
  · intro hcopy
    rw [hw, hcopy]
    exact ⟨rfl, rfl, rfl⟩

/-- C1, amended, at the request `/b/x.png` on an empty cache. -/
theorem C1_cache_miss_witness :
    2 ≤ (strings.Split "/b/x.png".toList '/').length ∧
    metadataOf (sampleEnv sampleMetadata) "/b/x.png".toList = .ok (some sampleMetadata) ∧
    FS.lookup [] (cachePath (sampleEnv sampleMetadata) "/b/x.png".toList) = none ∧
    (Files (sampleEnv sampleMetadata) (request "/b/x.png".toList [])).log.filter
        Event.isDownload = [Event.download "b".toList "x.png".toList] ∧
    (Files (sampleEnv sampleMetadata) (request "/b/x.png".toList [])).fs.lookup
        "/srv/data/b/x.png".toList = some (Node.file [7, 8, 9]) ∧
    (Files (sampleEnv sampleMetadata) (request "/b/x.png".toList [])).writer.body
        = [7, 8, 9] :=
  ⟨by decide, rfl, by decide,
    (C1_cache_miss (sampleEnv sampleMetadata) [] "/b/x.png".toList sampleMetadata [7, 8, 9]
      (by decide) rfl (by decide) rfl rfl rfl).1.trans (by decide),
    (by decide : "/srv/data/b/x.png".toList
        = cachePath (sampleEnv sampleMetadata) "/b/x.png".toList) ▸
      (C1_cache_miss (sampleEnv sampleMetadata) [] "/b/x.png".toList sampleMetadata [7, 8, 9]
        (by decide) rfl (by decide) rfl rfl rfl).2.2.1,
    ((C1_cache_miss (sampleEnv sampleMetadata) [] "/b/x.png".toList sampleMetadata [7, 8, 9]
      (by decide) rfl (by decide) rfl rfl rfl).2.2.2 rfl).1⟩

theorem metadataCalls_filter (env : Env) (uriPath : Str) (q : Event → Bool)
    (h1 : q Event.getClient = false) (h2 : ∀ k, q (Event.redisGet k) = false) :
    (metadataCalls env uriPath).filter q = [] := by
  unfold metadataCalls
  cases env.redisClient <;> simp [h1, h2]

theorem cachePath_base (env1 env2 : Env) (uriPath : Str) (h : env2.base = env1.base) :
    cachePath env2 uriPath = cachePath env1 uriPath := by
  unfold cachePath
  rw [h]

/-- The cache-hit run: what `Files` does once `exists` has answered true for a request with
a metadata record. -/
theorem Files_hit_run (env : Env) (uriPath : Str) (fs : FS) (md : UploadFileInfo)
    (content : Bytes)
    (hparse : 2 ≤ (strings.Split uriPath '/').length)
    (hmeta : metadataOf env uriPath = .ok (some md))
    (hfile : fs.lookup (cachePath env uriPath) = some (Node.file content))
    (hstat : env.statErr (cachePath env uriPath) = none) :
    (Files env (request uriPath fs)).log.filter Event.isDownload = [] ∧
    (Files env (request uriPath fs)).log.filter Event.isFsWrite = [] ∧
    (Files env (request uriPath fs)).log.filter Event.isProbe
        = [Event.stat (cachePath env uriPath), Event.osOpen (cachePath env uriPath)] ∧
    (Files env (request uriPath fs)).fs = fs ∧
    (env.openErr (cachePath env uriPath) = none → env.copyErr = none →
      (Files env (request uriPath fs)).writer.body = content ∧
      (Files env (request uriPath fs)).writer.status = [http.StatusOK] ∧
      (Files env (request uriPath fs)).writer.json = []) := by
  rw [Files_hit env uriPath fs md hparse hmeta (statFinds_present env fs _ _ hfile hstat)]
  refine ⟨?_, ?_, ?_, fileOutput_fs _ _ _, ?_⟩
  · rw [fileOutput_log, List.filter_append,
      probed_log_filter env uriPath fs md Event.isDownload rfl (fun _ => rfl)]
    rfl
  · rw [fileOutput_log, List.filter_append,
      probed_log_filter env uriPath fs md Event.isFsWrite rfl (fun _ => rfl)]
    rfl
  · rw [fileOutput_log, List.filter_append,
      probed_log_filter env uriPath fs md Event.isProbe rfl (fun _ => rfl)]
    rfl
  · intro hopen hcopy
    rw [fileOutput_ok env _ _ content hfile hopen, hcopy]
    exact ⟨rfl, rfl, rfl⟩

/-- C2, as stated, fails four times on a cache that holds the file.  When `os.Stat` fails
on the file (no search permission on the bucket directory), `exists` answers false and
`Download` is invoked.  When `os.Open` fails on it, the response carries the error
`ErrorFileOpen` and none of the file's bytes.  When the response writer fails after one
byte, the body is that byte, followed by `ErrorFileRead`.  When the lookup succeeds with a
nil record, the handler panics and streams nothing. -/
theorem C2_counterexample :
    2 ≤ (strings.Split "/b/x.png".toList '/').length ∧
    sampleCache.lookup "/srv/data/b/x.png".toList = some (Node.file [4, 5, 6]) ∧
    (metadataOf envStatDenied "/b/x.png".toList = .ok (some sampleMetadata) ∧
      cachePath envStatDenied "/b/x.png".toList = "/srv/data/b/x.png".toList ∧
      (Files envStatDenied (request "/b/x.png".toList sampleCache)).log.filter
          Event.isDownload = [Event.download "b".toList "x.png".toList] ∧
      (Files envStatDenied (request "/b/x.png".toList sampleCache)).writer.body
        ≠ [4, 5, 6]) ∧
    (metadataOf envOpenDenied "/b/x.png".toList = .ok (some sampleMetadata) ∧
      cachePath envOpenDenied "/b/x.png".toList = "/srv/data/b/x.png".toList ∧
      (Files envOpenDenied (request "/b/x.png".toList sampleCache)).writer.json
        = [(ErrorCode.ErrorFileOpen, some "open: permission denied".toList)] ∧
      (Files envOpenDenied (request "/b/x.png".toList sampleCache)).writer.body
        ≠ [4, 5, 6]) ∧
    (metadataOf envBrokenPipe "/b/x.png".toList = .ok (some sampleMetadata) ∧
      cachePath envBrokenPipe "/b/x.png".toList = "/srv/data/b/x.png".toList ∧
      (Files envBrokenPipe (request "/b/x.png".toList sampleCache)).writer.json
        = [(ErrorCode.ErrorFileRead, some "write: broken pipe".toList)] ∧
      (Files envBrokenPipe (request "/b/x.png".toList sampleCache)).writer.body = [4]) ∧
    (metadataOf envNullRecord "/b/x.png".toList = .ok none ∧
      cachePath envNullRecord "/b/x.png".toList = "/srv/data/b/x.png".toList ∧
      (Files envNullRecord (request "/b/x.png".toList sampleCache)).panic
        = some "invalid memory address or nil pointer dereference".toList ∧
      (Files envNullRecord (request "/b/x.png".toList sampleCache)).writer.body
        ≠ [4, 5, 6]) :=
  ⟨by decide, by decide, ⟨rfl, by decide, by decide, by decide⟩,
    ⟨rfl, by decide, by decide, by decide⟩, ⟨rfl, by decide, by decide, by decide⟩,
    ⟨rfl, by decide, by decide, by decide⟩⟩

/-- C2, amended: for every request whose path parses and whose metadata lookup succeeds, if
the local file at `<base>/data/<bucket>/<file_name>` exists and `os.Stat` succeeds on it,
then `Download` is never invoked, no filesystem write is made and the filesystem is left
unchanged; and when the lookup returned a record, the local calls are the `os.Stat` and the
`os.Open` of that path, and if `os.Open` and the copy to the response succeed, the response
body is the on-disk bytes of that file exactly, with status 200 and no error. -/
theorem C2_cache_hit (env : Env) (fs : FS) (uriPath : Str) (r : Option UploadFileInfo)
    (content : Bytes)
    (hparse : 2 ≤ (strings.Split uriPath '/').length)
    (hmeta : metadataOf env uriPath = .ok r)
    (hfile : fs.lookup (cachePath env uriPath) = some (Node.file content))
    (hstat : env.statErr (cachePath env uriPath) = none) :
    (Files env (request uriPath fs)).log.filter Event.isDownload = [] ∧
    (Files env (request uriPath fs)).log.filter Event.isFsWrite = [] ∧
    (Files env (request uriPath fs)).fs = fs ∧
    (r ≠ none →
      (Files env (request uriPath fs)).log.filter Event.isProbe
          = [Event.stat (cachePath env uriPath), Event.osOpen (cachePath env uriPath)] ∧
      (env.openErr (cachePath env uriPath) = none → env.copyErr = none →
        (Files env (request uriPath fs)).writer.body = content ∧
        (Files env (request uriPath fs)).writer.status = [http.StatusOK] ∧
        (Files env (request uriPath fs)).writer.json = [] ∧
        (Files env (request uriPath fs)).panic = none)) := by
  cases r with
  | none =>
    rw [Files_good env uriPath fs hparse, hmeta]
    exact ⟨metadataCalls_filter env uriPath Event.isDownload rfl (fun _ => rfl),
      metadataCalls_filter env uriPath Event.isFsWrite rfl (fun _ => rfl), rfl,
      fun h => absurd rfl h⟩
  | some md =>
    obtain ⟨h1, h2, h3, h4, h5⟩ :=
      Files_hit_run env uriPath fs md content hparse hmeta hfile hstat
    refine ⟨h1, h2, h4, fun _ => ⟨h3, fun hopen hcopy => ?_⟩⟩
    obtain ⟨hb, hs, hj⟩ := h5 hopen hcopy
    refine ⟨hb, hs, hj, ?_⟩
    rw [Files_hit env uriPath fs md hparse hmeta (statFinds_present env fs _ _ hfile hstat),
      fileOutput_panic]
    rfl

/-- C2, amended, at the request `/b/x.png` on a cache that holds the file. -/
theorem C2_cache_hit_witness :
    2 ≤ (strings.Split "/b/x.png".toList '/').length ∧
    metadataOf (sampleEnv sampleMetadata) "/b/x.png".toList = .ok (some sampleMetadata) ∧
    sampleCache.lookup (cachePath (sampleEnv sampleMetadata) "/b/x.png".toList)
      = some (Node.file [4, 5, 6]) ∧
    (sampleEnv sampleMetadata).statErr (cachePath (sampleEnv sampleMetadata) "/b/x.png".toList)
      = none ∧
    (Files (sampleEnv sampleMetadata) (request "/b/x.png".toList sampleCache)).log.filter
        Event.isDownload = [] ∧
    (Files (sampleEnv sampleMetadata) (request "/b/x.png".toList sampleCache)).fs
        = sampleCache ∧
    (Files (sampleEnv sampleMetadata) (request "/b/x.png".toList sampleCache)).writer.body
        = [4, 5, 6] :=
  ⟨by decide, rfl, by decide, rfl,
    (C2_cache_hit (sampleEnv sampleMetadata) sampleCache "/b/x.png".toList
      (some sampleMetadata) [4, 5, 6] (by decide) rfl (by decide) rfl).1,
    (C2_cache_hit (sampleEnv sampleMetadata) sampleCache "/b/x.png".toList
      (some sampleMetadata) [4, 5, 6] (by decide) rfl (by decide) rfl).2.2.1,
    (((C2_cache_hit (sampleEnv sampleMetadata) sampleCache "/b/x.png".toList
      (some sampleMetadata) [4, 5, 6] (by decide) rfl (by decide) rfl).2.2.2
        (by simp)).2 rfl rfl).1⟩

/-- C3, as stated, fails.  The first run, in a world without failures, misses the cache,
downloads `7 8 9`, stores and streams it.  On the resulting filesystem the second run
answers `ErrorFileOpen` with no byte when `os.Open` fails, streams only `7` when its
response writer fails, invokes `Download` again when `os.Stat` fails on the cached file,
never reaches the cache when the store has lost the key, and panics when the stored value
has become the JSON `null`.  And when the response writer fails in the first run only, the
first body is `7` and the second `7 8 9`. -/
theorem C3_counterexample :
    2 ≤ (strings.Split "/b/x.png".toList '/').length ∧
    (metadataOf (sampleEnv sampleMetadata) "/b/x.png".toList = .ok (some sampleMetadata) ∧
      FS.lookup [] (cachePath (sampleEnv sampleMetadata) "/b/x.png".toList) = none ∧
      (sampleEnv sampleMetadata).download "b".toList "x.png".toList = .ok [7, 8, 9] ∧
      (sampleEnv sampleMetadata).createErr
        (cachePath (sampleEnv sampleMetadata) "/b/x.png".toList) = none ∧
      (sampleEnv sampleMetadata).writeErr
        (cachePath (sampleEnv sampleMetadata) "/b/x.png".toList) = none ∧
      (Files (sampleEnv sampleMetadata) (request "/b/x.png".toList [])).writer.body
        = [7, 8, 9] ∧
      (Files (sampleEnv sampleMetadata) (request "/b/x.png".toList [])).writer.json = []) ∧
    ((Files envTooManyFiles (request "/b/x.png".toList
        (Files (sampleEnv sampleMetadata) (request "/b/x.png".toList [])).fs)).writer.body
        = [] ∧
      (Files envTooManyFiles (request "/b/x.png".toList
        (Files (sampleEnv sampleMetadata) (request "/b/x.png".toList [])).fs)).writer.json
        = [(ErrorCode.ErrorFileOpen, some "open: too many open files".toList)]) ∧
    ((Files envBrokenPipe (request "/b/x.png".toList
        (Files (sampleEnv sampleMetadata) (request "/b/x.png".toList [])).fs)).writer.body
        = [7]) ∧
    ((Files envStatDenied (request "/b/x.png".toList
        (Files (sampleEnv sampleMetadata) (request "/b/x.png".toList [])).fs)).log.filter
        Event.isDownload = [Event.download "b".toList "x.png".toList]) ∧
    ((Files envKeyAbsent (request "/b/x.png".toList
        (Files (sampleEnv sampleMetadata) (request "/b/x.png".toList [])).fs)).log.filter
        Event.isProbe = [] ∧
      (Files envKeyAbsent (request "/b/x.png".toList
        (Files (sampleEnv sampleMetadata) (request "/b/x.png".toList [])).fs)).writer.body
        = []) ∧
    ((Files envNullRecord (request "/b/x.png".toList
        (Files (sampleEnv sampleMetadata) (request "/b/x.png".toList [])).fs)).log.filter
        Event.isProbe = [] ∧
      (Files envNullRecord (request "/b/x.png".toList
        (Files (sampleEnv sampleMetadata) (request "/b/x.png".toList [])).fs)).writer.body
        = []) ∧
    (metadataOf envBrokenPipe "/b/x.png".toList = .ok (some sampleMetadata) ∧
      envBrokenPipe.download "b".toList "x.png".toList = .ok [7, 8, 9] ∧
      envBrokenPipe.createErr (cachePath envBrokenPipe "/b/x.png".toList) = none ∧
      envBrokenPipe.writeErr (cachePath envBrokenPipe "/b/x.png".toList) = none ∧
      (Files envBrokenPipe (request "/b/x.png".toList [])).writer.body = [7] ∧
      (Files (sampleEnv sampleMetadata) (request "/b/x.png".toList
        (Files envBrokenPipe (request "/b/x.png".toList [])).fs)).writer.body
        = [7, 8, 9]) :=
  ⟨by decide, ⟨rfl, by decide, rfl, rfl, rfl, by decide, by decide⟩,
    ⟨by decide, by decide⟩, by decide, by decide, ⟨by decide, by decide⟩,
    ⟨by decide, by decide⟩, ⟨rfl, rfl, rfl, rfl, by decide, by decide⟩⟩

/-- C3, amended: for every request, if a first run takes the cache-miss path and download,
creation and write succeed, then the path written by `fileOutputFromNode` is the path
probed by `Files` and holds the payload; a second run of the same request on the resulting
filesystem, in which the metadata lookup again returns a record and `os.Stat` succeeds on
the cached file, takes the cache-hit path (`os.Stat` and `os.Open` of that path), does not
invoke `Download` and leaves the filesystem as it is; and when the copy to the response
succeeds in both runs and `os.Open` succeeds in the second, the second response body is the
first one, the payload, byte for byte.  The two runs may differ in every failure and in the
state of the store. -/
theorem C3_idempotent (env1 env2 : Env) (fs : FS) (uriPath : Str)
    (md1 md2 : UploadFileInfo) (payload : Bytes)
    (hparse : 2 ≤ (strings.Split uriPath '/').length)
    (hmeta1 : metadataOf env1 uriPath = .ok (some md1))
    (hmiss : statFinds env1 fs (cachePath env1 uriPath) = false)
    (hdownload : env1.download (requestPath uriPath).Bucket (requestPath uriPath).FileName
      = .ok payload)
    (hcreate : env1.createErr (cachePath env1 uriPath) = none)
    (hwrite : env1.writeErr (cachePath env1 uriPath) = none)
    (hbase : env2.base = env1.base)
    (hmeta2 : metadataOf env2 uriPath = .ok (some md2))
    (hstat : env2.statErr (cachePath env1 uriPath) = none) :
    path.Join [path.Join [env1.base, "data".toList, (requestPath uriPath).Bucket],
        (requestPath uriPath).FileName] = cachePath env1 uriPath ∧
    (Files env1 (request uriPath fs)).fs.lookup (cachePath env1 uriPath)
        = some (Node.file payload) ∧
    (Files env2 (request uriPath (Files env1 (request uriPath fs)).fs)).log.filter
        Event.isProbe
        = [Event.stat (cachePath env1 uriPath), Event.osOpen (cachePath env1 uriPath)] ∧
    (Files env2 (request uriPath (Files env1 (request uriPath fs)).fs)).log.filter
        Event.isDownload = [] ∧
    (Files env2 (request uriPath (Files env1 (request uriPath fs)).fs)).fs
        = (Files env1 (request uriPath fs)).fs ∧
    (env1.copyErr = none → env2.openErr (cachePath env1 uriPath) = none →
      env2.copyErr = none →
      (Files env2 (request uriPath (Files env1 (request uriPath fs)).fs)).writer.body
          = (Files env1 (request uriPath fs)).writer.body ∧
      (Files env2 (request uriPath (Files env1 (request uriPath fs)).fs)).writer.body
          = payload ∧
      (Files env2 (request uriPath (Files env1 (request uriPath fs)).fs)).writer.json
          = []) := by
  have hcp := cachePath_base env1 env2 uriPath hbase
  obtain ⟨hfs, -, hw⟩ := fileOutputFromNode_ok env1 (probedContext env1 uriPath fs md1)
    (requestPath uriPath).Bucket (requestPath uriPath).FileName payload hdownload hcreate hwrite
  rw [← Files_miss env1 uriPath fs md1 hparse hmeta1 hmiss] at hfs hw
  have hfs1 : (Files env1 (request uriPath fs)).fs.lookup (cachePath env1 uriPath)
      = some (Node.file payload) := hfs
  obtain ⟨h1, -, h3, h4, h5⟩ := Files_hit_run env2 uriPath (Files env1 (request uriPath fs)).fs
    md2 payload hparse hmeta2 (by rw [hcp]; exact hfs1) (by rw [hcp]; exact hstat)
  rw [hcp] at h3 h5
  refine ⟨join_join _ _ _, hfs1, h3, h1, h4, ?_⟩
  intro hcopy1 hopen hcopy2
  obtain ⟨hb, -, hj⟩ := h5 hopen hcopy2
  refine ⟨?_, hb, hj⟩
  rw [hb, hw, hcopy1]
  rfl

/-- C3, amended, at the request `/b/x.png`, run twice from an empty cache. -/
theorem C3_idempotent_witness :
    2 ≤ (strings.Split "/b/x.png".toList '/').length ∧
    metadataOf (sampleEnv sampleMetadata) "/b/x.png".toList = .ok (some sampleMetadata) ∧
    statFinds (sampleEnv sampleMetadata) []
      (cachePath (sampleEnv sampleMetadata) "/b/x.png".toList) = false ∧
    metadataOf (sampleEnv sampleMetadataWithHeader) "/b/x.png".toList
      = .ok (some sampleMetadataWithHeader) ∧
    (Files (sampleEnv sampleMetadataWithHeader) (request "/b/x.png".toList
        (Files (sampleEnv sampleMetadata) (request "/b/x.png".toList [])).fs)).log.filter
      Event.isDownload = [] ∧
    (Files (sampleEnv sampleMetadataWithHeader) (request "/b/x.png".toList
        (Files (sampleEnv sampleMetadata) (request "/b/x.png".toList [])).fs)).writer.body
      = [7, 8, 9] :=
  ⟨by decide, rfl, by decide, rfl,
    (C3_idempotent (sampleEnv sampleMetadata) (sampleEnv sampleMetadataWithHeader) []
      "/b/x.png".toList sampleMetadata sampleMetadataWithHeader [7, 8, 9]
      (by decide) rfl (by decide) rfl rfl rfl rfl rfl rfl).2.2.2.1,
    ((C3_idempotent (sampleEnv sampleMetadata) (sampleEnv sampleMetadataWithHeader) []
      "/b/x.png".toList sampleMetadata sampleMetadataWithHeader [7, 8, 9]
      (by decide) rfl (by decide) rfl rfl rfl rfl rfl rfl).2.2.2.2.2 rfl rfl rfl).2.1⟩

end FileGateway
